import Mathlib

/-
Verification development for the Student Management System result engine:
a shallow embedding of the result computation services
(semester_result_service.py, yearly_result_service.py) over list-modelled
database tables, with SQLite REAL marks modelled as rationals.
-/

namespace SMS

/- ### SQL LIKE pattern matching

SQLite LIKE is ASCII case-insensitive.  The services use three patterns:
  name LIKE %Semester%        (relevant-exam scan)
  name LIKE %Semester%Exam%   (per-subject semester exam pick)
  name LIKE %CAT%             (per-subject CAT rows)
We model them on lowered character lists. -/

/-- Lowercased character list of a string (ASCII case folding, as SQLite LIKE). -/
def lowerChars (s : String) : List Char := s.toList.map Char.toLower

/-- Does pattern `pat` occur at the start of `s`? -/
def startsWith : List Char → List Char → Bool
  | [], _ => true
  | _ :: _, [] => false
  | p :: ps, c :: cs => p == c && startsWith ps cs

/-- Does `pat` occur contiguously anywhere inside `s`?  Models LIKE with a
single percent on each side. -/
def containsPat (pat : List Char) : List Char → Bool
  | [] => startsWith pat []
  | c :: cs => startsWith pat (c :: cs) || containsPat pat cs

/-- The suffix of `s` strictly after the first occurrence of `pat`, if any. -/
def suffixAfterFirst (pat : List Char) : List Char → Option (List Char)
  | [] => if startsWith pat [] then some [] else none
  | c :: cs =>
    if startsWith pat (c :: cs) then some ((c :: cs).drop pat.length)
    else suffixAfterFirst pat cs

/-- Model of SQL name LIKE %Semester%. -/
def likeSemester (name : String) : Bool :=
  containsPat ("semester".toList) (lowerChars name)

/-- Model of SQL name LIKE %CAT%. -/
def likeCAT (name : String) : Bool :=
  containsPat ("cat".toList) (lowerChars name)

/-- Model of SQL name LIKE %Semester%Exam%: an occurrence of Semester
followed (disjointly) by an occurrence of `Exam`.  Matching the first
occurrence of `Semester` greedily is complete for this two-segment pattern. -/
def likeSemesterExam (name : String) : Bool :=
  match suffixAfterFirst ("semester".toList) (lowerChars name) with
  | some rest => containsPat ("exam".toList) rest
  | none => false

/- ### Data model (database/schema.py) -/

/-- Row of the Students table (fields the engine reads). -/
structure Student where
  id : Nat
  currentGradeId : Nat
deriving DecidableEq, Repr

/-- Row of the Enrollments table. -/
structure Enrollment where
  studentId : Nat
  academicYearId : Nat
  gradeId : Nat
deriving DecidableEq, Repr

/-- Row of the Exams table. -/
structure Exam where
  id : Nat
  name : String
  semesterId : Nat
  academicYearId : Nat
  maxMarks : ℚ
deriving DecidableEq, Repr

/-- Row of the ExamResults table. -/
structure ExamResult where
  studentId : Nat
  examId : Nat
  subjectId : Nat
  marks : ℚ
deriving DecidableEq, Repr

/-- Row of the SemesterResults table (the surrogate id column is dropped;
row position in the list stands for it). -/
structure SemesterResult where
  studentId : Nat
  semesterId : Nat
  academicYearId : Nat
  totalMarks : ℚ
  averageScore : ℚ
  gradeRank : Nat
deriving DecidableEq, Repr

/-- Row of the YearlyResults table. -/
structure YearlyResult where
  studentId : Nat
  academicYearId : Nat
  totalMarks : ℚ
  averageScore : ℚ
  gradeRank : Nat
deriving DecidableEq, Repr

/-- The database state: each table as a list of rows in insertion order.
Subjects carries only the ids (the engine joins Subjects purely to check
existence of the subject row). -/
structure DB where
  students : List Student
  subjects : List Nat
  enrollments : List Enrollment
  exams : List Exam
  examResults : List ExamResult
  semesterResults : List SemesterResult
  yearlyResults : List YearlyResult
deriving DecidableEq, Repr

/- ### Generic upsert (add_semester_result / add_yearly_result)

Both add functions fetch the first row with the given composite key;
if present they overwrite that row in place (UPDATE by its id), else they
append a fresh row (INSERT). -/

/-- Upsert by key: replace the first row whose key matches the key of `r`
with `r`, or append `r` if no row matches. -/
def upsertBy {α κ : Type} [DecidableEq κ] (key : α → κ) : List α → α → List α
  | [], r => [r]
  | x :: t, r => if key x = key r then r :: t else x :: upsertBy key t r

/-- Composite key of a SemesterResults row, in the order of the WHERE clause
of get_semester_result_by_composite_keys. -/
def semKey (x : SemesterResult) : Nat × Nat × Nat :=
  (x.studentId, x.semesterId, x.academicYearId)

/-- Composite key of a YearlyResults row. -/
def yearKey (x : YearlyResult) : Nat × Nat :=
  (x.studentId, x.academicYearId)

/-- add_semester_result restricted to its effect on the SemesterResults table. -/
def addSemesterResult (rows : List SemesterResult) (r : SemesterResult) : List SemesterResult :=
  upsertBy semKey rows r

/-- add_yearly_result restricted to its effect on the YearlyResults table. -/
def addYearlyResult (rows : List YearlyResult) (r : YearlyResult) : List YearlyResult :=
  upsertBy yearKey rows r

/- ### Queries of compute_and_store_semester_results -/

/-- Nested-loop join of Students with Enrollments on s.id = e.student_id
filtered to one academic year, projected to (student id, current grade id). -/
def joinEnroll (sts : List Student) (ens : List Enrollment) (ay : Nat) :
    List (Nat × Nat) :=
  sts.foldr
    (fun s acc =>
      ((ens.filter
          (fun e => e.studentId == s.id && e.academicYearId == ay)).map
        (fun _ => (s.id, s.currentGradeId))) ++ acc)
    []

/-- Students JOIN Enrollments ON s.id = e.student_id WHERE e.academic_year_id = ay,
projected to (student id, current grade id). -/
def studentsInYear (db : DB) (ay : Nat) : List (Nat × Nat) :=
  joinEnroll db.students db.enrollments ay

/-- Exams in scope whose name is LIKE Semester or LIKE CAT (the relevance
check at the head of compute_and_store_semester_results). -/
def relevantExams (db : DB) (ay sem : Nat) : List Exam :=
  db.exams.filter
    (fun e => e.academicYearId == ay && e.semesterId == sem &&
      (likeSemester e.name || likeCAT e.name))

/-- Nested-loop join of ExamResults with Exams on er.exam_id = e.id,
restricted to one student and one (academic year, semester) scope. -/
def joinRows (ers : List ExamResult) (exs : List Exam) (ay sem sid : Nat) :
    List (ExamResult × Exam) :=
  ers.foldr
    (fun r acc =>
      (if r.studentId == sid then
        (exs.filter
            (fun e => e.id == r.examId && e.academicYearId == ay && e.semesterId == sem)).map
          (fun e => (r, e))
      else []) ++ acc)
    []

/-- ExamResults JOIN Exams ON er.exam_id = e.id
WHERE er.student_id = sid AND e.academic_year_id = ay AND e.semester_id = sem. -/
def scopedRows (db : DB) (ay sem sid : Nat) : List (ExamResult × Exam) :=
  joinRows db.examResults db.exams ay sem sid

/-- First-occurrence deduplication of a list of keyed pairs (dict insertion
order: a key keeps its first position). -/
def dedupKeys (seen : List Nat) : List (Nat × Nat) → List (Nat × Nat)
  | [] => []
  | p :: t => if p.1 ∈ seen then dedupKeys seen t else p :: dedupKeys (p.1 :: seen) t

/-- First-occurrence deduplication of a list of naturals (SELECT DISTINCT). -/
def dedupNats (seen : List Nat) : List Nat → List Nat
  | [] => []
  | x :: t => if x ∈ seen then dedupNats seen t else x :: dedupNats (x :: seen) t

/-- The distinct subjects for which the student has a score row in scope
(query joining ExamResults, Subjects and Exams; a subject id with no
Subjects row is dropped by the join). -/
def studentSubjects (db : DB) (ay sem sid : Nat) : List Nat :=
  dedupNats []
    (((scopedRows db ay sem sid).filter
        (fun p => db.subjects.contains p.1.subjectId)).map
      (fun p => p.1.subjectId))

/-- fetch_one of the per-subject semester-exam query over a row list:
first score row for the subject on an exam LIKE Semester-Exam. -/
def semExamRowOf (rows : List (ExamResult × Exam)) (subj : Nat) :
    Option (ExamResult × Exam) :=
  rows.find? (fun p => p.1.subjectId == subj && likeSemesterExam p.2.name)

/-- The per-subject CAT query over a row list: all score rows for the
subject on exams LIKE CAT. -/
def catRowsOf (rows : List (ExamResult × Exam)) (subj : Nat) :
    List (ExamResult × Exam) :=
  rows.filter (fun p => p.1.subjectId == subj && likeCAT p.2.name)

/-- Achieved marks contributed by one subject: semester-exam marks
(0 if absent) plus the arithmetic mean of the CAT marks (0 if none). -/
def subjectAchievedOf (rows : List (ExamResult × Exam)) (subj : Nat) : ℚ :=
  (match semExamRowOf rows subj with
   | some p => p.1.marks
   | none => 0) +
  (let cats := catRowsOf rows subj
   if cats.isEmpty then 0
   else ((cats.map (fun p => p.1.marks)).sum) / (cats.length : ℚ))

/-- Possible marks for one subject: semester-exam max marks (0 if absent)
plus the mean of the CAT exams max marks (0 if none). -/
def subjectPossibleOf (rows : List (ExamResult × Exam)) (subj : Nat) : ℚ :=
  (match semExamRowOf rows subj with
   | some p => p.2.maxMarks
   | none => 0) +
  (let cats := catRowsOf rows subj
   if cats.isEmpty then 0
   else ((cats.map (fun p => p.2.maxMarks)).sum) / (cats.length : ℚ))

/-- Achieved contribution of a subject for a student in scope. -/
def subjectAchieved (db : DB) (ay sem sid subj : Nat) : ℚ :=
  subjectAchievedOf (scopedRows db ay sem sid) subj

/-- Possible contribution of a subject for a student in scope. -/
def subjectPossible (db : DB) (ay sem sid subj : Nat) : ℚ :=
  subjectPossibleOf (scopedRows db ay sem sid) subj

/-- Accumulator of the per-student subject loop. -/
structure Totals where
  score : ℚ
  possible : ℚ
  counted : Nat
deriving DecidableEq, Repr

/-- One iteration of the subject loop: a subject is added to the running
totals, and counted, exactly when its possible total is positive. -/
def totalsStep (db : DB) (ay sem sid : Nat) (acc : Totals) (subj : Nat) : Totals :=
  if 0 < subjectPossible db ay sem sid subj then
    ⟨acc.score + subjectAchieved db ay sem sid subj,
     acc.possible + subjectPossible db ay sem sid subj,
     acc.counted + 1⟩
  else acc

/-- The subject loop over a subject list. -/
def totalsOn (db : DB) (ay sem sid : Nat) (subjects : List Nat) : Totals :=
  subjects.foldl (totalsStep db ay sem sid) ⟨0, 0, 0⟩

/-- Semester totals of one student over their subject list. -/
def studentTotals (db : DB) (ay sem sid : Nat) : Totals :=
  totalsOn db ay sem sid (studentSubjects db ay sem sid)

/-- The subjects that pass the positive-possible guard. -/
def countedSubjects (db : DB) (ay sem sid : Nat) : List Nat :=
  (studentSubjects db ay sem sid).filter
    (fun subj => decide (0 < subjectPossible db ay sem sid subj))

/-- average_score = (total / possible) * 100 when possible is positive, else 0. -/
def semesterAverage (t : Totals) : ℚ :=
  if 0 < t.possible then t.score / t.possible * 100 else 0

/-- Computed per-student semester record before ranking. -/
structure SemData where
  totalMarks : ℚ
  averageScore : ℚ
  gradeId : Nat
deriving DecidableEq, Repr

/-- Per-student semester computation with the three skip conditions:
no score rows in scope, no subjects with results, or zero counted subjects. -/
def studentSemEntry (db : DB) (ay sem sid grade : Nat) : Option SemData :=
  if (scopedRows db ay sem sid).isEmpty then none
  else if (studentSubjects db ay sem sid).isEmpty then none
  else
    let t := studentTotals db ay sem sid
    if t.counted == 0 then none
    else some ⟨t.score, semesterAverage t, grade⟩

/-- The dict student_semester_data as an association list in insertion
order: enrolled students, first occurrence per student id, survivors only. -/
def semesterData (db : DB) (ay sem : Nat) : List (Nat × SemData) :=
  (dedupKeys [] (studentsInYear db ay)).filterMap
    (fun p => (studentSemEntry db ay sem p.1 p.2).map (fun d => (p.1, d)))

/- ### Ranking (shared walk of both services) -/

/-- Stable descending insertion by score: an element goes before the first
element with a score not above it, so equal scores keep original order
(the Python stable sort with reverse order). -/
def insertDesc (x : Nat × ℚ) : List (Nat × ℚ) → List (Nat × ℚ)
  | [] => [x]
  | y :: t => if y.2 ≤ x.2 then x :: y :: t else y :: insertDesc x t

/-- Stable sort of a cohort by descending average score. -/
def sortDesc (l : List (Nat × ℚ)) : List (Nat × ℚ) :=
  l.foldr insertDesc []

/-- The ranking walk: position counter i, current rank, previous score
(sentinel -1 before the first element).  A student keeps the current rank
exactly when their score equals the previous score, else gets rank i + 1. -/
def rankWalk (i cur : Nat) (prev : ℚ) : List (Nat × ℚ) → List (Nat × ℚ × Nat)
  | [] => []
  | (s, a) :: t =>
    let r := if a = prev then cur else i + 1
    (s, a, r) :: rankWalk (i + 1) r a t

/-- The (student, average) pairs of one grade cohort, taken from ranking
input triples (student, average, grade) in data order. -/
def gradeCohort (l : List (Nat × ℚ × Nat)) (g : Nat) : List (Nat × ℚ) :=
  (l.filter (fun p => p.2.2 == g)).map (fun p => (p.1, p.2.1))

/-- Ranks assigned to the cohort of grade g. -/
def ranksFor (l : List (Nat × ℚ × Nat)) (g : Nat) : List (Nat × ℚ × Nat) :=
  rankWalk 0 1 (-1) (sortDesc (gradeCohort l g))

/-- The rank stored for one student: their entry in the walk of their grade. -/
def rankOf (l : List (Nat × ℚ × Nat)) (g sid : Nat) : Nat :=
  match (ranksFor l g).find? (fun p => p.1 == sid) with
  | some p => p.2.2
  | none => 0

/- ### compute_and_store_semester_results -/

/-- Ranking input of the semester run. -/
def semRankInput (data : List (Nat × SemData)) : List (Nat × ℚ × Nat) :=
  data.map (fun p => (p.1, p.2.averageScore, p.2.gradeId))

/-- The SemesterResults row written for one surviving student. -/
def semesterRow (ay sem : Nat) (data : List (Nat × SemData)) (p : Nat × SemData) :
    SemesterResult :=
  ⟨p.1, sem, ay, p.2.totalMarks, p.2.averageScore,
    rankOf (semRankInput data) p.2.gradeId p.1⟩

/-- compute_and_store_semester_results: early returns when no enrolled
students or no relevant exams; otherwise compute survivors, rank per grade,
and upsert one row per survivor in dict order. -/
def computeSemesterResults (db : DB) (ay sem : Nat) : DB :=
  if (studentsInYear db ay).isEmpty then db
  else if (relevantExams db ay sem).isEmpty then db
  else
    let data := semesterData db ay sem
    { db with semesterResults :=
        (data.map (semesterRow ay sem data)).foldl addSemesterResult db.semesterResults }

/- ### compute_and_store_yearly_results -/

/-- Nested-loop join of SemesterResults with Students on sr.student_id = s.id,
restricted to one academic year. -/
def joinYear (srs : List SemesterResult) (sts : List Student) (ay : Nat) :
    List (SemesterResult × Student) :=
  srs.foldr
    (fun sr acc =>
      (if sr.academicYearId == ay then
        (sts.filter (fun s => s.id == sr.studentId)).map (fun s => (sr, s))
      else []) ++ acc)
    []

/-- SemesterResults JOIN Students ON sr.student_id = s.id
WHERE sr.academic_year_id = ay. -/
def yearlyScope (db : DB) (ay : Nat) : List (SemesterResult × Student) :=
  joinYear db.semesterResults db.students ay

/-- Joined rows of one student in the yearly scope. -/
def yearlyRowsFor (db : DB) (ay sid : Nat) : List (SemesterResult × Student) :=
  (yearlyScope db ay).filter (fun p => p.1.studentId == sid)

/-- Student ids of the yearly scope in dict insertion order. -/
def yearlyStudentIds (db : DB) (ay : Nat) : List Nat :=
  dedupNats [] ((yearlyScope db ay).map (fun p => p.1.studentId))

/-- Computed per-student yearly record before ranking. -/
structure YearEntry where
  totalMarks : ℚ
  averageScore : ℚ
  gradeId : Nat
deriving DecidableEq, Repr

/-- Yearly aggregation of one student: sum of semester totals, mean of
semester averages over the number of contributing rows, grade taken from
the first joined row. -/
def yearlyEntry (db : DB) (ay sid : Nat) : Option YearEntry :=
  match yearlyRowsFor db ay sid with
  | [] => none
  | r :: t =>
    let n := (r :: t).length
    some ⟨((r :: t).map (fun p => p.1.totalMarks)).sum,
      if 0 < n then (((r :: t).map (fun p => p.1.averageScore)).sum) / (n : ℚ) else 0,
      r.2.currentGradeId⟩

/-- The dict student_yearly_data as an association list in insertion order. -/
def yearlyData (db : DB) (ay : Nat) : List (Nat × YearEntry) :=
  (yearlyStudentIds db ay).filterMap
    (fun sid => (yearlyEntry db ay sid).map (fun d => (sid, d)))

/-- Ranking input of the yearly run. -/
def yearRankInput (data : List (Nat × YearEntry)) : List (Nat × ℚ × Nat) :=
  data.map (fun p => (p.1, p.2.averageScore, p.2.gradeId))

/-- The YearlyResults row written for one surviving student. -/
def yearlyRow (ay : Nat) (data : List (Nat × YearEntry)) (p : Nat × YearEntry) :
    YearlyResult :=
  ⟨p.1, ay, p.2.totalMarks, p.2.averageScore,
    rankOf (yearRankInput data) p.2.gradeId p.1⟩

/-- compute_and_store_yearly_results: early return when the yearly scope is
empty; otherwise aggregate per student, rank per grade, and upsert one row
per student in dict order. -/
def computeYearlyResults (db : DB) (ay : Nat) : DB :=
  if (yearlyScope db ay).isEmpty then db
  else
    let data := yearlyData db ay
    { db with yearlyResults :=
        (data.map (yearlyRow ay data)).foldl addYearlyResult db.yearlyResults }

/- ### Derived notions used by the verification -/

/-- The scope rows whose exam name matches one of the two contribution
patterns (Semester-then-Exam, or CAT). -/
def matchingRows (rows : List (ExamResult × Exam)) : List (ExamResult × Exam) :=
  rows.filter (fun p => likeSemesterExam p.2.name || likeCAT p.2.name)

/-- The enrolled students (first occurrence per id) skipped by a semester
run: no score rows in scope, no subjects, or zero counted subjects. -/
def skippedStudents (db : DB) (ay sem : Nat) : List (Nat × Nat) :=
  (dedupKeys [] (studentsInYear db ay)).filter
    (fun p => (studentSemEntry db ay sem p.1 p.2).isNone)

/-- At most one SemesterResults row per (student, semester, academic year). -/
def semUnique (rows : List SemesterResult) : Prop := (rows.map semKey).Nodup

/-- At most one YearlyResults row per (student, academic year). -/
def yearUnique (rows : List YearlyResult) : Prop := (rows.map yearKey).Nodup

/-- Database states reachable by any sequence of the four write operations
of the two result services. -/
inductive Reach : DB → DB → Prop
  | refl (db : DB) : Reach db db
  | addSem (db db2 : DB) (r : SemesterResult) (h : Reach db db2) :
      Reach db { db2 with semesterResults := addSemesterResult db2.semesterResults r }
  | addYear (db db2 : DB) (r : YearlyResult) (h : Reach db db2) :
      Reach db { db2 with yearlyResults := addYearlyResult db2.yearlyResults r }
  | computeSem (db db2 : DB) (ay sem : Nat) (h : Reach db db2) :
      Reach db (computeSemesterResults db2 ay sem)
  | computeYear (db db2 : DB) (ay : Nat) (h : Reach db db2) :
      Reach db (computeYearlyResults db2 ay)

/- ### Concrete database states for the spec scenarios -/

/-- One student with Mathematics scores 70/100 (semester exam), 25/30 and
28/30 (CATs) in semester 1 of academic year 1. -/
def dbJohn : DB :=
  { students := [⟨1, 1⟩],
    subjects := [1],
    enrollments := [⟨1, 1, 1⟩],
    exams := [⟨1, "Semester 1 Exam", 1, 1, 100⟩, ⟨2, "CAT 1", 1, 1, 30⟩,
      ⟨3, "CAT 2", 1, 1, 30⟩],
    examResults := [⟨1, 1, 1, 70⟩, ⟨1, 2, 1, 25⟩, ⟨1, 3, 1, 28⟩],
    semesterResults := [],
    yearlyResults := [] }

/-- One student whose only score is 50/100 on an exam named
Semester Review: the name contains Semester but not the
Semester-then-Exam pattern. -/
def dbSemReview : DB :=
  { students := [⟨1, 1⟩],
    subjects := [1],
    enrollments := [⟨1, 1, 1⟩],
    exams := [⟨1, "Semester Review", 1, 1, 100⟩],
    examResults := [⟨1, 1, 1, 50⟩],
    semesterResults := [],
    yearlyResults := [] }

/-- One student whose only score is 20/30 on an exam named in lower case
cat test 1: the name contains neither Semester nor CAT as a literal
substring, but matches LIKE CAT case-insensitively. -/
def dbCatLower : DB :=
  { students := [⟨1, 1⟩],
    subjects := [1],
    enrollments := [⟨1, 1, 1⟩],
    exams := [⟨1, "cat test 1", 1, 1, 30⟩],
    examResults := [⟨1, 1, 1, 20⟩],
    semesterResults := [],
    yearlyResults := [] }

/-- One student with two stored semester results in academic year 1. -/
def dbYear : DB :=
  { students := [⟨1, 1⟩],
    subjects := [],
    enrollments := [],
    exams := [],
    examResults := [],
    semesterResults := [⟨1, 1, 1, 100, 50, 2⟩, ⟨1, 2, 1, 110, 60, 3⟩],
    yearlyResults := [] }

/-- One enrolled student with no score rows at all, in a scope that has a
relevant exam. -/
def dbSkip : DB :=
  { students := [⟨1, 1⟩],
    subjects := [1],
    enrollments := [⟨1, 1, 1⟩],
    exams := [⟨1, "Semester 1 Exam", 1, 1, 100⟩],
    examResults := [],
    semesterResults := [],
    yearlyResults := [] }

/-- A three-student one-grade ranking input with averages 90, 90, 80. -/
def rankInput3 : List (Nat × ℚ × Nat) := [(1, 90, 1), (2, 90, 1), (3, 80, 1)]

/- ### Lemmas about the LIKE patterns -/

theorem containsPat_of_suffixAfterFirst {pat s : List Char} {r : List Char}
    (h : suffixAfterFirst pat s = some r) : containsPat pat s = true := by
  induction s with
  | nil =>
    unfold suffixAfterFirst at h
    unfold containsPat
    by_cases hp : startsWith pat [] = true
    · exact hp
    · simp [hp] at h
  | cons c cs ih =>
    unfold suffixAfterFirst at h
    unfold containsPat
    by_cases hp : startsWith pat (c :: cs) = true
    · simp [hp]
    · simp [hp] at h ⊢
      exact ih h

/-- A name matching the per-subject pattern Semester-then-Exam also matches
the relevance pattern LIKE Semester. -/
theorem likeSemester_of_likeSemesterExam {name : String}
    (h : likeSemesterExam name = true) : likeSemester name = true := by
  unfold likeSemesterExam at h
  unfold likeSemester
  cases hs : suffixAfterFirst ("semester".toList) (lowerChars name) with
  | none => rw [hs] at h; exact absurd h (by simp)
  | some r => exact containsPat_of_suffixAfterFirst hs

/- ### Generic list lemmas -/

theorem find?_filter_of_imp {α : Type} (p q : α → Bool)
    (hpq : ∀ x, p x = true → q x = true) (l : List α) :
    (l.filter q).find? p = l.find? p := by
  induction l with
  | nil => rfl
  | cons x t ih =>
    by_cases hq : q x = true
    · by_cases hp : p x = true
      · simp [List.filter_cons, hq, List.find?, hp]
      · simp [List.filter_cons, hq, List.find?, hp, ih]
    · have hp : p x = false := by
        cases hpx : p x with
        | false => rfl
        | true => exact absurd (hpq x hpx) hq
      simp [List.filter_cons, hq, List.find?, hp, ih]

theorem filter_filter_of_imp {α : Type} (p q : α → Bool)
    (hpq : ∀ x, p x = true → q x = true) (l : List α) :
    (l.filter q).filter p = l.filter p := by
  induction l with
  | nil => rfl
  | cons x t ih =>
    by_cases hq : q x = true
    · simp [List.filter_cons, hq, ih]
    · have hp : p x = false := by
        cases hpx : p x with
        | false => rfl
        | true => exact absurd (hpq x hpx) hq
      simp [List.filter_cons, hq, hp, ih]

theorem filterMap_length_add {α β : Type} (f : α → Option β) (l : List α) :
    (l.filterMap f).length + (l.filter (fun x => (f x).isNone)).length = l.length := by
  induction l with
  | nil => rfl
  | cons x t ih =>
    cases hf : f x with
    | none => simp [List.filterMap_cons, List.filter_cons, hf, ← ih]; omega
    | some b => simp [List.filterMap_cons, List.filter_cons, hf, ← ih]; omega

theorem filterMap_keyed_fst_sublist {β : Type} (g : Nat × Nat → Option β)
    (l : List (Nat × Nat)) :
    ((l.filterMap (fun p => (g p).map (fun d => (p.1, d)))).map
        (fun q => q.1)).Sublist (l.map (fun p => p.1)) := by
  induction l with
  | nil => simp
  | cons x t ih =>
    cases hg : g x with
    | none =>
      simp [List.filterMap_cons, hg]
      exact ih.cons _
    | some b =>
      simp [List.filterMap_cons, hg]
      exact ih

/- ### Deduplication lemmas -/

theorem dedupKeys_fst_nodup_aux (l : List (Nat × Nat)) : ∀ seen : List Nat,
    ((dedupKeys seen l).map (fun p => p.1)).Nodup ∧
      ∀ x ∈ (dedupKeys seen l).map (fun p => p.1), x ∉ seen := by
  induction l with
  | nil => intro seen; simp [dedupKeys]
  | cons p t ih =>
    intro seen
    by_cases hmem : p.1 ∈ seen
    · simpa [dedupKeys, hmem] using ih seen
    · have h2 := ih (p.1 :: seen)
      refine ⟨?_, ?_⟩
      · simp only [dedupKeys, hmem, if_false, List.map_cons, List.nodup_cons]
        refine ⟨fun hc => ?_, h2.1⟩
        exact (h2.2 p.1 hc) (by simp)
      · intro x hx
        simp only [dedupKeys, hmem, if_false, List.map_cons, List.mem_cons] at hx
        rcases hx with rfl | hx
        · exact hmem
        · intro hc
          exact (h2.2 x hx) (by simp [hc])

theorem dedupKeys_fst_nodup (l : List (Nat × Nat)) :
    ((dedupKeys [] l).map (fun p => p.1)).Nodup :=
  (dedupKeys_fst_nodup_aux l []).1

theorem mem_of_mem_dedupKeys {p : Nat × Nat} (l : List (Nat × Nat)) :
    ∀ seen, p ∈ dedupKeys seen l → p ∈ l := by
  induction l with
  | nil => intro seen h; simp [dedupKeys] at h
  | cons q t ih =>
    intro seen h
    by_cases hmem : q.1 ∈ seen
    · simp only [dedupKeys, hmem, if_true] at h
      exact List.mem_cons_of_mem _ (ih seen h)
    · simp only [dedupKeys, hmem, if_false, List.mem_cons] at h
      rcases h with rfl | h
      · simp
      · exact List.mem_cons_of_mem _ (ih _ h)

theorem dedupNats_nodup_aux (l : List Nat) : ∀ seen : List Nat,
    (dedupNats seen l).Nodup ∧ ∀ x ∈ dedupNats seen l, x ∉ seen := by
  induction l with
  | nil => intro seen; simp [dedupNats]
  | cons x t ih =>
    intro seen
    by_cases hmem : x ∈ seen
    · simpa [dedupNats, hmem] using ih seen
    · have h2 := ih (x :: seen)
      refine ⟨?_, ?_⟩
      · simp only [dedupNats, hmem, if_false, List.nodup_cons]
        refine ⟨fun hc => ?_, h2.1⟩
        exact (h2.2 x hc) (by simp)
      · intro y hy
        simp only [dedupNats, hmem, if_false, List.mem_cons] at hy
        rcases hy with rfl | hy
        · exact hmem
        · intro hc
          exact (h2.2 y hy) (by simp [hc])

theorem mem_dedupNats_of_mem {x : Nat} (l : List Nat) :
    ∀ seen, x ∈ l → x ∉ seen → x ∈ dedupNats seen l := by
  induction l with
  | nil => intro seen h; simp at h
  | cons y t ih =>
    intro seen hmem hseen
    rcases List.mem_cons.1 hmem with rfl | hx
    · by_cases hy : x ∈ seen
      · exact absurd hy hseen
      · simp [dedupNats, hy]
    · by_cases hy : y ∈ seen
      · simp only [dedupNats, hy, if_true]
        exact ih seen hx hseen
      · simp only [dedupNats, hy, if_false, List.mem_cons]
        by_cases hxy : x = y
        · exact Or.inl hxy
        · exact Or.inr (ih _ hx (by simp [hseen, hxy]))

theorem mem_of_mem_dedupNats {x : Nat} (l : List Nat) :
    ∀ seen, x ∈ dedupNats seen l → x ∈ l := by
  induction l with
  | nil => intro seen h; simp [dedupNats] at h
  | cons y t ih =>
    intro seen h
    by_cases hy : y ∈ seen
    · simp only [dedupNats, hy, if_true] at h
      exact List.mem_cons_of_mem _ (ih seen h)
    · simp only [dedupNats, hy, if_false, List.mem_cons] at h
      rcases h with rfl | h
      · simp
      · exact List.mem_cons_of_mem _ (ih _ h)

/- ### Upsert lemmas -/

section Upsert

variable {α κ : Type} [DecidableEq κ] (key : α → κ)

/-- After an upsert, the first row with the key of `r` is `r` itself. -/
theorem upsert_find?_self (rows : List α) (r : α) :
    (upsertBy key rows r).find? (fun x => decide (key x = key r)) = some r := by
  induction rows with
  | nil => simp [upsertBy, List.find?]
  | cons x t ih =>
    by_cases hk : key x = key r
    · simp [upsertBy, hk, List.find?]
    · simp [upsertBy, hk, List.find?, ih]

/-- An upsert does not touch the first row with a different key. -/
theorem upsert_find?_other (rows : List α) (r : α) (k : κ) (hk : k ≠ key r) :
    (upsertBy key rows r).find? (fun x => decide (key x = k)) =
      rows.find? (fun x => decide (key x = k)) := by
  have hrk : (decide (key r = k)) = false := by
    simp only [decide_eq_false_iff_not]
    exact fun h => hk h.symm
  induction rows with
  | nil => simp [upsertBy, List.find?, hrk]
  | cons x t ih =>
    by_cases hx : key x = key r
    · have hxk : (decide (key x = k)) = false := by
        simp only [decide_eq_false_iff_not]
        intro h
        exact hk (h.symm.trans hx)
      simp [upsertBy, hx, List.find?, hxk, hrk]
    · by_cases hxk : key x = k
      · simp [upsertBy, hx, List.find?, hxk, hk]
      · simp [upsertBy, hx, List.find?, hxk, ih]

/-- Upserting a row that is already the first row with its key is a no-op. -/
theorem upsert_eq_self_of_find? (rows : List α) (r : α)
    (h : rows.find? (fun x => decide (key x = key r)) = some r) :
    upsertBy key rows r = rows := by
  induction rows with
  | nil => simp [List.find?] at h
  | cons x t ih =>
    by_cases hk : key x = key r
    · rw [List.find?_cons_of_pos _ (by simp [hk])] at h
      simp only [Option.some.injEq] at h
      simp [upsertBy, hk, h]
    · rw [List.find?_cons_of_neg _ (by simp [hk])] at h
      simp [upsertBy, hk, ih h]

/-- Upserting twice with the same row equals upserting once. -/
theorem upsert_upsert_self (rows : List α) (r : α) :
    upsertBy key (upsertBy key rows r) r = upsertBy key rows r :=
  upsert_eq_self_of_find? key _ r (upsert_find?_self key rows r)

/-- A fold of upserts whose keys all differ from `k` leaves the first row
with key `k` unchanged. -/
theorem foldl_upsert_find?_frame (L : List α) (rows : List α) (k : κ)
    (hL : ∀ s ∈ L, key s ≠ k) :
    (L.foldl (upsertBy key) rows).find? (fun x => decide (key x = k)) =
      rows.find? (fun x => decide (key x = k)) := by
  induction L generalizing rows with
  | nil => rfl
  | cons s t ih =>
    simp only [List.foldl_cons]
    rw [ih _ (fun x hx => hL x (List.mem_cons_of_mem _ hx))]
    exact upsert_find?_other key rows s k (fun h => hL s (by simp) h.symm)

/-- Folding the same batch of distinct-key upserts twice equals folding once. -/
theorem foldl_upsert_idem (L : List α) (rows : List α)
    (hnd : (L.map key).Nodup) :
    L.foldl (upsertBy key) (L.foldl (upsertBy key) rows) =
      L.foldl (upsertBy key) rows := by
  induction L generalizing rows with
  | nil => rfl
  | cons r t ih =>
    simp only [List.map_cons, List.nodup_cons] at hnd
    obtain ⟨hr, ht⟩ := hnd
    simp only [List.foldl_cons]
    have hfix : upsertBy key (t.foldl (upsertBy key) (upsertBy key rows r)) r
        = t.foldl (upsertBy key) (upsertBy key rows r) := by
      apply upsert_eq_self_of_find?
      rw [foldl_upsert_find?_frame key t _ (key r)
        (fun s hs h => hr (h ▸ List.mem_map_of_mem key hs))]
      exact upsert_find?_self key rows r
    rw [hfix]
    exact ih _ ht

/-- An upserted row is present in the result. -/
theorem mem_upsert_self (rows : List α) (r : α) : r ∈ upsertBy key rows r := by
  induction rows with
  | nil => simp [upsertBy]
  | cons x t ih =>
    by_cases hk : key x = key r
    · simp [upsertBy, hk]
    · simp only [upsertBy, hk, if_false, List.mem_cons]
      exact Or.inr ih

/-- Every row of a batch of distinct-key upserts is present after the fold. -/
theorem mem_foldl_upsert (L : List α) (rows : List α) (r : α)
    (hnd : (L.map key).Nodup) (hr : r ∈ L) :
    r ∈ L.foldl (upsertBy key) rows := by
  induction L generalizing rows with
  | nil => simp at hr
  | cons s t ih =>
    simp only [List.map_cons, List.nodup_cons] at hnd
    obtain ⟨hs, ht⟩ := hnd
    simp only [List.foldl_cons]
    rcases List.mem_cons.1 hr with rfl | hmem
    · have hfind : (t.foldl (upsertBy key) (upsertBy key rows r)).find?
          (fun x => decide (key x = key r)) = some r := by
        rw [foldl_upsert_find?_frame key t _ (key r)
          (fun q hq h => hs (h ▸ List.mem_map_of_mem key hq))]
        exact upsert_find?_self key rows r
      exact List.mem_of_find?_eq_some hfind
    · exact ih _ ht hmem

/-- Rows of an upsert come from the original rows or are the new row. -/
theorem mem_of_mem_upsert (rows : List α) (r : α) (x : α)
    (hx : x ∈ upsertBy key rows r) : x ∈ r :: rows := by
  induction rows with
  | nil => simpa [upsertBy] using hx
  | cons y t ih =>
    by_cases hk : key y = key r
    · simp only [upsertBy, hk, if_true] at hx
      rcases List.mem_cons.1 hx with rfl | hxt
      · simp
      · simp [List.mem_cons_of_mem, hxt]
    · simp only [upsertBy, hk, if_false, List.mem_cons] at hx
      rcases hx with rfl | hxt
      · simp
      · rcases List.mem_cons.1 (ih hxt) with rfl | h
        · simp
        · simp [List.mem_cons_of_mem, h]

/-- Upserting preserves distinctness of row keys. -/
theorem upsert_nodup_keys (rows : List α) (r : α)
    (hnd : (rows.map key).Nodup) : ((upsertBy key rows r).map key).Nodup := by
  induction rows with
  | nil => simp [upsertBy]
  | cons x t ih =>
    simp only [List.map_cons, List.nodup_cons] at hnd
    obtain ⟨hx, ht⟩ := hnd
    by_cases hk : key x = key r
    · simp only [upsertBy, hk, if_true, List.map_cons, List.nodup_cons]
      exact ⟨hk ▸ hx, ht⟩
    · simp only [upsertBy, hk, if_false, List.map_cons, List.nodup_cons]
      refine ⟨?_, ih ht⟩
      intro hc
      rcases List.mem_map.1 hc with ⟨y, hy, hky⟩
      rcases List.mem_cons.1 (mem_of_mem_upsert key t r y hy) with rfl | hyt
      · exact hk hky.symm
      · exact hx (hky ▸ List.mem_map_of_mem key hyt)

/-- Frame property of one upsert: rows failing a predicate that covers the
key of the upserted row are untouched. -/
theorem upsert_filter_not (rows : List α) (r : α) (p : α → Bool)
    (hr : p r = true) (hkey : ∀ x, key x = key r → p x = true) :
    (upsertBy key rows r).filter (fun x => ! p x) =
      rows.filter (fun x => ! p x) := by
  induction rows with
  | nil => simp [upsertBy, List.filter_cons, hr]
  | cons x t ih =>
    by_cases hk : key x = key r
    · simp [upsertBy, hk, List.filter_cons, hr, hkey x hk]
    · simp only [upsertBy, hk, if_false, List.filter_cons]
      rw [ih]

/-- Frame property of a fold of upserts. -/
theorem foldl_upsert_filter_not (L : List α) (rows : List α) (p : α → Bool)
    (hL : ∀ r ∈ L, p r = true)
    (hkey : ∀ r ∈ L, ∀ x, key x = key r → p x = true) :
    (L.foldl (upsertBy key) rows).filter (fun x => ! p x) =
      rows.filter (fun x => ! p x) := by
  induction L generalizing rows with
  | nil => rfl
  | cons r t ih =>
    simp only [List.foldl_cons]
    rw [ih _ (fun s hs => hL s (List.mem_cons_of_mem _ hs))
      (fun s hs => hkey s (List.mem_cons_of_mem _ hs))]
    exact upsert_filter_not key rows r p (hL r (by simp)) (hkey r (by simp))

end Upsert

/- ### The subject loop as sums over the counted subjects -/

theorem foldl_totalsStep (db : DB) (ay sem sid : Nat) (l : List Nat) :
    ∀ acc : Totals,
      l.foldl (totalsStep db ay sem sid) acc =
        ⟨acc.score +
            ((l.filter (fun subj => decide (0 < subjectPossible db ay sem sid subj))).map
                (fun subj => subjectAchieved db ay sem sid subj)).sum,
          acc.possible +
            ((l.filter (fun subj => decide (0 < subjectPossible db ay sem sid subj))).map
                (fun subj => subjectPossible db ay sem sid subj)).sum,
          acc.counted +
            (l.filter (fun subj => decide (0 < subjectPossible db ay sem sid subj))).length⟩ := by
  induction l with
  | nil => intro acc; simp
  | cons s t ih =>
    intro acc
    by_cases hp : 0 < subjectPossible db ay sem sid s
    · have hd : (decide (0 < subjectPossible db ay sem sid s)) = true := decide_eq_true hp
      rw [List.foldl_cons, ih]
      unfold totalsStep
      rw [if_pos hp]
      simp only [hd, List.filter_cons, if_true, List.map_cons, List.sum_cons,
        List.length_cons, Totals.mk.injEq, eq_self_iff_true]
      refine ⟨by ring, by ring, by ring⟩
    · have hd : (decide (0 < subjectPossible db ay sem sid s)) = false := by
        simpa using hp
      rw [List.foldl_cons, ih]
      unfold totalsStep
      rw [if_neg hp]
      simp [hd]

/-- The totals of the subject loop are the sums of achieved and possible
over the counted subjects, and the count of counted subjects. -/
theorem totalsOn_eq (db : DB) (ay sem sid : Nat) (l : List Nat) :
    totalsOn db ay sem sid l =
      ⟨((l.filter (fun subj => decide (0 < subjectPossible db ay sem sid subj))).map
          (fun subj => subjectAchieved db ay sem sid subj)).sum,
        ((l.filter (fun subj => decide (0 < subjectPossible db ay sem sid subj))).map
          (fun subj => subjectPossible db ay sem sid subj)).sum,
        (l.filter (fun subj => decide (0 < subjectPossible db ay sem sid subj))).length⟩ := by
  unfold totalsOn
  rw [foldl_totalsStep]
  simp

theorem studentTotals_eq (db : DB) (ay sem sid : Nat) :
    studentTotals db ay sem sid =
      ⟨((countedSubjects db ay sem sid).map
          (fun subj => subjectAchieved db ay sem sid subj)).sum,
        ((countedSubjects db ay sem sid).map
          (fun subj => subjectPossible db ay sem sid subj)).sum,
        (countedSubjects db ay sem sid).length⟩ := by
  unfold studentTotals countedSubjects
  exact totalsOn_eq db ay sem sid _

/- ### Join membership lemmas -/

theorem mem_joinRows {ers : List ExamResult} {exs : List Exam} {ay sem sid : Nat}
    {p : ExamResult × Exam} (h : p ∈ joinRows ers exs ay sem sid) :
    p.1 ∈ ers ∧ p.2 ∈ exs ∧ p.1.studentId = sid ∧ p.2.id = p.1.examId ∧
      p.2.academicYearId = ay ∧ p.2.semesterId = sem := by
  induction ers with
  | nil => simp [joinRows] at h
  | cons r t ih =>
    simp only [joinRows, List.foldr_cons, List.mem_append] at h
    rcases h with h | h
    · by_cases hs : r.studentId == sid
      · rw [if_pos hs] at h
        rcases List.mem_map.1 h with ⟨e, he, rfl⟩
        rcases List.mem_filter.1 he with ⟨hee, hcond⟩
        simp only [Bool.and_eq_true, beq_iff_eq] at hcond hs
        exact ⟨by simp, hee, hs, hcond.1.1, hcond.1.2, hcond.2⟩
      · rw [if_neg hs] at h
        simp at h
    · have := ih h
      exact ⟨List.mem_cons_of_mem _ this.1, this.2.1, this.2.2.1, this.2.2.2.1,
        this.2.2.2.2.1, this.2.2.2.2.2⟩

theorem mem_scopedRows {db : DB} {ay sem sid : Nat} {p : ExamResult × Exam}
    (h : p ∈ scopedRows db ay sem sid) :
    p.1 ∈ db.examResults ∧ p.2 ∈ db.exams ∧ p.1.studentId = sid ∧
      p.2.id = p.1.examId ∧ p.2.academicYearId = ay ∧ p.2.semesterId = sem :=
  mem_joinRows h

theorem mem_joinEnroll {sts : List Student} {ens : List Enrollment} {ay : Nat}
    {q : Nat × Nat} (h : q ∈ joinEnroll sts ens ay) :
    ∃ s ∈ sts, q = (s.id, s.currentGradeId) := by
  induction sts with
  | nil => simp [joinEnroll] at h
  | cons s t ih =>
    simp only [joinEnroll, List.foldr_cons, List.mem_append] at h
    rcases h with h | h
    · rcases List.mem_map.1 h with ⟨e, _, rfl⟩
      exact ⟨s, by simp, rfl⟩
    · rcases ih h with ⟨s2, hs2, hq⟩
      exact ⟨s2, List.mem_cons_of_mem _ hs2, hq⟩

/- ### A positive possible total exhibits a relevant exam -/

theorem possible_pos_witness {db : DB} {ay sem sid subj : Nat}
    (h : 0 < subjectPossible db ay sem sid subj) :
    ∃ p ∈ scopedRows db ay sem sid,
      likeSemesterExam p.2.name = true ∨ likeCAT p.2.name = true := by
  unfold subjectPossible subjectPossibleOf at h
  cases hfind : semExamRowOf (scopedRows db ay sem sid) subj with
  | some p =>
    have hp := List.find?_some hfind
    have hmem := List.mem_of_find?_eq_some hfind
    simp only [Bool.and_eq_true] at hp
    exact ⟨p, hmem, Or.inl hp.2⟩
  | none =>
    rw [hfind] at h
    by_cases hc : (catRowsOf (scopedRows db ay sem sid) subj).isEmpty
    · rw [if_pos hc] at h
      norm_num at h
    · cases hrows : catRowsOf (scopedRows db ay sem sid) subj with
      | nil => rw [hrows] at hc; simp at hc
      | cons q t =>
        have hq : q ∈ catRowsOf (scopedRows db ay sem sid) subj := by
          rw [hrows]; simp
        rcases List.mem_filter.1 hq with ⟨hqmem, hqcond⟩
        simp only [Bool.and_eq_true] at hqcond
        exact ⟨q, hqmem, Or.inr hqcond.2⟩

theorem relevantExams_ne_of_counted {db : DB} {ay sem sid : Nat}
    (h : (studentTotals db ay sem sid).counted ≠ 0) :
    relevantExams db ay sem ≠ [] := by
  rw [studentTotals_eq] at h
  have hne : countedSubjects db ay sem sid ≠ [] := by
    intro hc
    rw [hc] at h
    simp at h
  cases hcs : countedSubjects db ay sem sid with
  | nil => exact absurd hcs hne
  | cons subj t =>
    have hsub : subj ∈ countedSubjects db ay sem sid := by rw [hcs]; simp
    rcases List.mem_filter.1 hsub with ⟨_, hpos⟩
    simp only [decide_eq_true_eq] at hpos
    rcases possible_pos_witness hpos with ⟨p, hmem, hlike⟩
    have hprops := mem_scopedRows hmem
    intro hrel
    have : p.2 ∈ relevantExams db ay sem := by
      apply List.mem_filter.2
      refine ⟨hprops.2.1, ?_⟩
      simp only [Bool.and_eq_true, Bool.or_eq_true, beq_iff_eq]
      refine ⟨⟨hprops.2.2.2.2.1, hprops.2.2.2.2.2⟩, ?_⟩
      rcases hlike with hl | hl
      · exact Or.inl (likeSemester_of_likeSemesterExam hl)
      · exact Or.inr hl
    rw [hrel] at this
    simp at this

/- ### Characterizing membership in the computed semester data -/

theorem mem_semesterData {db : DB} {ay sem sid : Nat} {d : SemData} :
    (sid, d) ∈ semesterData db ay sem ↔
      ∃ g, (sid, g) ∈ dedupKeys [] (studentsInYear db ay) ∧
        studentSemEntry db ay sem sid g = some d := by
  unfold semesterData
  rw [List.mem_filterMap]
  constructor
  · rintro ⟨p, hp, hopt⟩
    cases he : studentSemEntry db ay sem p.1 p.2 with
    | none => rw [he] at hopt; simp at hopt
    | some d2 =>
      rw [he] at hopt
      simp only [Option.map_some', Option.some.injEq, Prod.mk.injEq] at hopt
      obtain ⟨h1, h2⟩ := hopt
      exact ⟨p.2, by rw [← h1]; exact hp, by rw [← h1, he, h2]⟩
  · rintro ⟨g, hmem, hentry⟩
    exact ⟨(sid, g), hmem, by simp [hentry]⟩

theorem studentSemEntry_some {db : DB} {ay sem sid g : Nat} {d : SemData}
    (h : studentSemEntry db ay sem sid g = some d) :
    (studentTotals db ay sem sid).counted ≠ 0 ∧
      d = ⟨(studentTotals db ay sem sid).score,
        semesterAverage (studentTotals db ay sem sid), g⟩ := by
  unfold studentSemEntry at h
  by_cases h1 : (scopedRows db ay sem sid).isEmpty
  · rw [if_pos h1] at h; exact absurd h (by simp)
  · rw [if_neg h1] at h
    by_cases h2 : (studentSubjects db ay sem sid).isEmpty
    · rw [if_pos h2] at h; exact absurd h (by simp)
    · rw [if_neg h2] at h
      by_cases h3 : ((studentTotals db ay sem sid).counted == 0) = true
      · rw [if_pos h3] at h; exact absurd h (by simp)
      · rw [if_neg h3] at h
        simp only [Option.some.injEq] at h
        refine ⟨by simpa using h3, h.symm⟩

theorem studentSemEntry_none_of_skip {db : DB} {ay sem sid : Nat}
    (h : (scopedRows db ay sem sid).isEmpty = true ∨
      (studentTotals db ay sem sid).counted = 0) :
    ∀ g, studentSemEntry db ay sem sid g = none := by
  intro g
  unfold studentSemEntry
  rcases h with h | h
  · rw [if_pos h]
  · by_cases h1 : (scopedRows db ay sem sid).isEmpty
    · rw [if_pos h1]
    · rw [if_neg h1]
      by_cases h2 : (studentSubjects db ay sem sid).isEmpty
      · rw [if_pos h2]
      · rw [if_neg h2]
        simp [h]

/- ### The semester computation reads only the non-derived tables -/

theorem studentsInYear_setSem (db : DB) (X : List SemesterResult) (ay : Nat) :
    studentsInYear { db with semesterResults := X } ay = studentsInYear db ay := rfl

theorem relevantExams_setSem (db : DB) (X : List SemesterResult) (ay sem : Nat) :
    relevantExams { db with semesterResults := X } ay sem = relevantExams db ay sem := rfl

theorem semesterData_setSem (db : DB) (X : List SemesterResult) (ay sem : Nat) :
    semesterData { db with semesterResults := X } ay sem = semesterData db ay sem := rfl

/- ### Distinctness of the keys written by one semester run -/

theorem semesterData_keys_nodup (db : DB) (ay sem : Nat) :
    ((semesterData db ay sem).map (fun p => p.1)).Nodup :=
  List.Nodup.sublist (filterMap_keyed_fst_sublist _ _)
    (dedupKeys_fst_nodup (studentsInYear db ay))

theorem semRows_keys_nodup (db : DB) (ay sem : Nat) :
    (((semesterData db ay sem).map
        (semesterRow ay sem (semesterData db ay sem))).map semKey).Nodup := by
  rw [List.map_map]
  have hcomp : (semKey ∘ semesterRow ay sem (semesterData db ay sem)) =
      (fun q => (q, sem, ay)) ∘ (fun p : Nat × SemData => p.1) := rfl
  rw [hcomp, ← List.map_map]
  refine List.Nodup.map ?_ (semesterData_keys_nodup db ay sem)
  intro a b hab
  simpa using hab

/- ### Every surviving student has a row present after the run -/

theorem semesterRow_mem_compute {db : DB} {ay sem sid : Nat} {d : SemData}
    (h : (sid, d) ∈ semesterData db ay sem) :
    semesterRow ay sem (semesterData db ay sem) (sid, d) ∈
      (computeSemesterResults db ay sem).semesterResults := by
  rcases mem_semesterData.1 h with ⟨g, hdk, hentry⟩
  have hsiy : (sid, g) ∈ studentsInYear db ay := mem_of_mem_dedupKeys _ _ hdk
  have h1 : ¬ (studentsInYear db ay).isEmpty = true := by
    cases hl : studentsInYear db ay with
    | nil => rw [hl] at hsiy; simp at hsiy
    | cons a t => simp [hl]
  have hcount := (studentSemEntry_some hentry).1
  have h2 : ¬ (relevantExams db ay sem).isEmpty = true := by
    have hne := relevantExams_ne_of_counted hcount
    cases hl : relevantExams db ay sem with
    | nil => exact absurd hl hne
    | cons a t => simp [hl]
  unfold computeSemesterResults
  rw [if_neg h1, if_neg h2]
  exact mem_foldl_upsert semKey _ _ _ (semRows_keys_nodup db ay sem)
    (List.mem_map_of_mem _ h)

/- ### Idempotence of the semester run -/

theorem computeSemester_early_students (db : DB) (ay sem : Nat)
    (h : (studentsInYear db ay).isEmpty = true) :
    computeSemesterResults db ay sem = db := by
  unfold computeSemesterResults
  rw [if_pos h]

theorem computeSemester_early_exams (db : DB) (ay sem : Nat)
    (h : (relevantExams db ay sem).isEmpty = true) :
    computeSemesterResults db ay sem = db := by
  unfold computeSemesterResults
  by_cases h1 : (studentsInYear db ay).isEmpty = true
  · rw [if_pos h1]
  · rw [if_neg h1, if_pos h]

theorem computeSemester_main (db : DB) (ay sem : Nat)
    (h1 : ¬ (studentsInYear db ay).isEmpty = true)
    (h2 : ¬ (relevantExams db ay sem).isEmpty = true) :
    computeSemesterResults db ay sem =
      { db with semesterResults :=
          (((semesterData db ay sem).map
              (semesterRow ay sem (semesterData db ay sem))).foldl
            addSemesterResult db.semesterResults) } := by
  unfold computeSemesterResults
  rw [if_neg h1, if_neg h2]

/- ### Sorting lemmas -/

theorem mem_insertDesc {x z : Nat × ℚ} (l : List (Nat × ℚ)) :
    z ∈ insertDesc x l ↔ z = x ∨ z ∈ l := by
  induction l with
  | nil => simp [insertDesc]
  | cons y t ih =>
    by_cases h : y.2 ≤ x.2
    · simp [insertDesc, h]
    · simp only [insertDesc, h, if_false, List.mem_cons, ih]
      tauto

theorem insertDesc_sorted {x : Nat × ℚ} {l : List (Nat × ℚ)}
    (hl : l.Pairwise (fun a b => b.2 ≤ a.2)) :
    (insertDesc x l).Pairwise (fun a b => b.2 ≤ a.2) := by
  induction l with
  | nil => simp [insertDesc]
  | cons y t ih =>
    rcases List.pairwise_cons.1 hl with ⟨hy, ht⟩
    by_cases h : y.2 ≤ x.2
    · rw [insertDesc, if_pos h]
      refine List.pairwise_cons.2 ⟨?_, hl⟩
      intro z hz
      rcases List.mem_cons.1 hz with rfl | hzt
      · exact h
      · exact le_trans (hy z hzt) h
    · rw [insertDesc, if_neg h]
      refine List.pairwise_cons.2 ⟨?_, ih ht⟩
      intro z hz
      rcases (mem_insertDesc t).1 hz with rfl | hzt
      · exact le_of_not_le h
      · exact hy z hzt

theorem sortDesc_sorted (l : List (Nat × ℚ)) :
    (sortDesc l).Pairwise (fun a b => b.2 ≤ a.2) := by
  induction l with
  | nil => simp [sortDesc]
  | cons x t ih => exact insertDesc_sorted ih

/- ### Ranking walk lemmas -/

theorem rankWalk_pairs (ys : List (Nat × ℚ)) : ∀ i cur prev,
    (rankWalk i cur prev ys).map (fun p => (p.1, p.2.1)) = ys := by
  induction ys with
  | nil => intro i cur prev; rfl
  | cons y t ih =>
    intro i cur prev
    cases y with
    | mk s a => simp [rankWalk, ih]

theorem rankWalk_length (ys : List (Nat × ℚ)) : ∀ i cur prev,
    (rankWalk i cur prev ys).length = ys.length := by
  induction ys with
  | nil => intro i cur prev; rfl
  | cons y t ih =>
    intro i cur prev
    cases y with
    | mk s a => simp [rankWalk, ih]

theorem rankWalk_scores (ys : List (Nat × ℚ)) : ∀ i cur prev,
    ∀ p ∈ rankWalk i cur prev ys, (p.1, p.2.1) ∈ ys := by
  induction ys with
  | nil => intro i cur prev p hp; simp [rankWalk] at hp
  | cons y t ih =>
    intro i cur prev p hp
    cases y with
    | mk s a =>
      simp only [rankWalk, List.mem_cons] at hp
      rcases hp with rfl | hp
      · simp
      · exact List.mem_cons_of_mem _ (ih _ _ _ p hp)

theorem rankWalk_rank_ge (ys : List (Nat × ℚ)) : ∀ i cur prev, cur ≤ i + 1 →
    ∀ p ∈ rankWalk i cur prev ys, cur ≤ p.2.2 := by
  induction ys with
  | nil => intro i cur prev _ p hp; simp [rankWalk] at hp
  | cons y t ih =>
    intro i cur prev hcur p hp
    cases y with
    | mk s a =>
      simp only [rankWalk, List.mem_cons] at hp
      rcases hp with rfl | hp
      · by_cases ha : a = prev
        · simp [ha]
        · simp only [ha, if_false]
          exact hcur
      · have hr : (if a = prev then cur else i + 1) ≤ (i + 1) + 1 := by
          by_cases ha : a = prev
          · simp [ha]; omega
          · simp [ha]
        have := ih (i + 1) _ a hr p hp
        by_cases ha : a = prev
        · simp only [ha, if_true] at this
          exact this
        · simp only [ha, if_false] at this
          omega

/-- In a walk whose previous score bounds every remaining score, a later
element with exactly the previous score keeps the current rank. -/
theorem rankWalk_eq_prev (ys : List (Nat × ℚ)) : ∀ i r a,
    (∀ y ∈ ys, y.2 ≤ a) → ys.Pairwise (fun x y => y.2 ≤ x.2) →
    ∀ p ∈ rankWalk i r a ys, p.2.1 = a → p.2.2 = r := by
  induction ys with
  | nil => intro i r a _ _ p hp; simp [rankWalk] at hp
  | cons y t ih =>
    intro i r a hbound hsort p hp hpa
    cases y with
    | mk s b =>
      rcases List.pairwise_cons.1 hsort with ⟨hb, ht⟩
      simp only [rankWalk, List.mem_cons] at hp
      by_cases hba : b = a
      · rcases hp with rfl | hp
        · simp [hba]
        · have := ih (i + 1) (if b = a then r else i + 1) b
            (by intro y hy; exact hb y hy) ht p hp (by rw [hpa, hba])
          rw [if_pos hba] at this
          exact this
      · rcases hp with rfl | hp
        · exact absurd hpa hba
        · -- every score in t is at most b < a, yet p has score a: impossible
          have hmem := rankWalk_scores t (i + 1) _ b (p.1, p.2.1, p.2.2) (by
            have : p = (p.1, p.2.1, p.2.2) := rfl
            rw [← this]; exact hp)
          have hble : b ≤ a := hbound (s, b) (by simp)
          have hlt : b < a := lt_of_le_of_ne hble hba
          have hple : ((p.1, p.2.1, p.2.2) : Nat × ℚ × Nat).2.1 ≤ b :=
            hb _ (rankWalk_scores t (i + 1) _ b _ hp)
          simp only at hple
          rw [hpa] at hple
          exact absurd (lt_of_lt_of_le hlt hple) (lt_irrefl b)

/-- Equal scores receive equal ranks in a walk over a sorted list. -/
theorem rankWalk_eq_of_eq (ys : List (Nat × ℚ)) : ∀ i cur prev,
    ys.Pairwise (fun x y => y.2 ≤ x.2) →
    ∀ p ∈ rankWalk i cur prev ys, ∀ q ∈ rankWalk i cur prev ys,
      p.2.1 = q.2.1 → p.2.2 = q.2.2 := by
  induction ys with
  | nil => intro i cur prev _ p hp; simp [rankWalk] at hp
  | cons y t ih =>
    intro i cur prev hsort p hp q hq hpq
    cases y with
    | mk s a =>
      rcases List.pairwise_cons.1 hsort with ⟨ha, ht⟩
      simp only [rankWalk, List.mem_cons] at hp hq
      rcases hp with rfl | hp <;> rcases hq with rfl | hq
      · rfl
      · -- p is the head, q sits in the tail with the same score a
        have := rankWalk_eq_prev t (i + 1) _ a ha ht q hq (by
          simpa using hpq.symm)
        simpa using this.symm
      · have := rankWalk_eq_prev t (i + 1) _ a ha ht p hp (by
          simpa using hpq)
        simpa using this
      · exact ih (i + 1) _ a ht p hp q hq hpq

/-- A strictly greater score receives a rank at most that of the smaller
score, in a walk over a sorted list. -/
theorem rankWalk_le_of_gt (ys : List (Nat × ℚ)) : ∀ i cur prev, cur ≤ i + 1 →
    ys.Pairwise (fun x y => y.2 ≤ x.2) →
    ∀ p ∈ rankWalk i cur prev ys, ∀ q ∈ rankWalk i cur prev ys,
      q.2.1 < p.2.1 → p.2.2 ≤ q.2.2 := by
  induction ys with
  | nil => intro i cur prev _ _ p hp; simp [rankWalk] at hp
  | cons y t ih =>
    intro i cur prev hcur hsort p hp q hq hlt
    cases y with
    | mk s a =>
      rcases List.pairwise_cons.1 hsort with ⟨ha, ht⟩
      have hr : (if a = prev then cur else i + 1) ≤ (i + 1) + 1 := by
        by_cases hap : a = prev
        · simp [hap]; omega
        · simp [hap]
      simp only [rankWalk, List.mem_cons] at hp hq
      rcases hp with rfl | hp <;> rcases hq with rfl | hq
      · exact absurd hlt (lt_irrefl _)
      · exact rankWalk_rank_ge t (i + 1) _ a hr q hq
      · -- p in the tail has score above the head score a: impossible
        have hps := ha _ (rankWalk_scores t (i + 1) _ a p hp)
        simp only at hps hlt
        exact absurd (lt_of_lt_of_le hlt hps) (lt_irrefl _)
      · exact ih (i + 1) _ a hr ht p hp q hq hlt

/-- Rank bound: the rank assigned at position k of the walk is at most
the 1-based position (shifted by the start index). -/
theorem rankWalk_rank_le (ys : List (Nat × ℚ)) : ∀ i cur prev, cur ≤ i + 1 →
    ∀ k, k < ys.length →
      ((rankWalk i cur prev ys).getD k (0, 0, 0)).2.2 ≤ i + k + 1 := by
  induction ys with
  | nil => intro i cur prev _ k hk; simp at hk
  | cons y t ih =>
    intro i cur prev hcur k hk
    cases y with
    | mk s a =>
      have hr : (if a = prev then cur else i + 1) ≤ (i + 1) := by
        by_cases hap : a = prev
        · simp [hap]; omega
        · simp [hap]
      cases k with
      | zero =>
        simp only [rankWalk, List.getD_cons_zero]
        omega
      | succ j =>
        simp only [rankWalk, List.getD_cons_succ]
        have hjt : j < t.length := by simpa using hk
        have := ih (i + 1) _ a (le_trans hr (by omega)) j hjt
        omega

/-- Positional recurrence of the walk: position 0 checks the sentinel,
position k keeps the previous rank exactly on a tied score and otherwise
gets rank k + 1 (shifted by the start index). -/
theorem rankWalk_getD (ys : List (Nat × ℚ)) : ∀ i cur prev, ∀ k, k < ys.length →
    ((rankWalk i cur prev ys).getD k (0, 0, 0)).2.2 =
      if k = 0 then (if (ys.getD 0 (0, 0)).2 = prev then cur else i + 1)
      else (if (ys.getD k (0, 0)).2 = (ys.getD (k - 1) (0, 0)).2
            then ((rankWalk i cur prev ys).getD (k - 1) (0, 0, 0)).2.2
            else i + k + 1) := by
  induction ys with
  | nil => intro i cur prev k hk; simp at hk
  | cons y t ih =>
    intro i cur prev k hk
    cases y with
    | mk s a =>
      cases k with
      | zero => simp [rankWalk]
      | succ j =>
        have hjt : j < t.length := by simpa using hk
        have hIH := ih (i + 1) (if a = prev then cur else i + 1) a j hjt
        cases j with
        | zero =>
          simp at hIH
          simp [rankWalk, hIH]
        | succ m =>
          simp only [rankWalk, List.getD_cons_succ] at hIH ⊢
          rw [hIH]
          rw [if_neg (show ¬ (m + 1 = 0) by omega),
            if_neg (show ¬ (m + 1 + 1 = 0) by omega)]
          simp only [Nat.add_sub_cancel, List.getD_cons_succ]
          have harith : i + 1 + (m + 1) + 1 = i + (m + 1 + 1) + 1 := by omega
          rw [harith]

/- ### Yearly computation lemmas -/

theorem filterMap_nat_keyed_fst_sublist {β : Type} (g : Nat → Option β)
    (l : List Nat) :
    ((l.filterMap (fun x => (g x).map (fun d => (x, d)))).map
        (fun q => q.1)).Sublist l := by
  induction l with
  | nil => simp
  | cons x t ih =>
    cases hg : g x with
    | none =>
      simp [List.filterMap_cons, hg]
      exact ih.cons _
    | some b =>
      simp [List.filterMap_cons, hg]
      exact ih

theorem yearlyData_keys_nodup (db : DB) (ay : Nat) :
    ((yearlyData db ay).map (fun p => p.1)).Nodup := by
  refine List.Nodup.sublist (filterMap_nat_keyed_fst_sublist _ _) ?_
  show (dedupNats [] ((yearlyScope db ay).map (fun p => p.1.studentId))).Nodup
  exact (dedupNats_nodup_aux _ []).1

theorem yearRows_keys_nodup (db : DB) (ay : Nat) :
    (((yearlyData db ay).map (yearlyRow ay (yearlyData db ay))).map yearKey).Nodup := by
  rw [List.map_map]
  have hcomp : (yearKey ∘ yearlyRow ay (yearlyData db ay)) =
      (fun q => (q, ay)) ∘ (fun p : Nat × YearEntry => p.1) := rfl
  rw [hcomp, ← List.map_map]
  refine List.Nodup.map ?_ (yearlyData_keys_nodup db ay)
  intro a b hab
  simpa using hab

theorem mem_yearlyData {db : DB} {ay sid : Nat} {e : YearEntry} :
    (sid, e) ∈ yearlyData db ay ↔
      sid ∈ yearlyStudentIds db ay ∧ yearlyEntry db ay sid = some e := by
  unfold yearlyData
  rw [List.mem_filterMap]
  constructor
  · rintro ⟨x, hx, hopt⟩
    cases he : yearlyEntry db ay x with
    | none => rw [he] at hopt; simp at hopt
    | some e2 =>
      rw [he] at hopt
      simp only [Option.map_some', Option.some.injEq, Prod.mk.injEq] at hopt
      obtain ⟨h1, h2⟩ := hopt
      exact ⟨h1 ▸ hx, by rw [← h1, he, h2]⟩
  · rintro ⟨hmem, hentry⟩
    exact ⟨sid, hmem, by simp [hentry]⟩

/-- Under a unique Students row for the id, the yearly join rows of a
student are exactly their SemesterResults rows for the year, each paired
with that Students row. -/
theorem joinYear_rowsFor (srs : List SemesterResult) (sts : List Student)
    (ay sid : Nat) (st : Student)
    (hst : sts.filter (fun s => s.id == sid) = [st]) :
    (joinYear srs sts ay).filter (fun p => p.1.studentId == sid) =
      (srs.filter (fun sr => sr.studentId == sid && sr.academicYearId == ay)).map
        (fun sr => (sr, st)) := by
  induction srs with
  | nil => rfl
  | cons sr t ih =>
    have hjcons : joinYear (sr :: t) sts ay =
        (if sr.academicYearId == ay then
          (sts.filter (fun s => s.id == sr.studentId)).map (fun s => (sr, s))
        else []) ++ joinYear t sts ay := rfl
    rw [hjcons, List.filter_append]
    have hc : ((fun p : SemesterResult × Student => p.1.studentId == sid) ∘
        (fun s : Student => (sr, s))) = fun _ : Student => (sr.studentId == sid) := rfl
    by_cases hay : (sr.academicYearId == ay) = true
    · rw [if_pos hay]
      by_cases hsid : (sr.studentId == sid) = true
      · have hsr : sr.studentId = sid := by simpa using hsid
        have hA : ((sts.filter (fun s => s.id == sr.studentId)).map
            (fun s => (sr, s))).filter
              (fun p => p.1.studentId == sid) = [(sr, st)] := by
          rw [List.filter_map, hc]
          simp only [hsid, List.filter_true]
          rw [hsr, hst]
          rfl
        rw [hA, List.filter_cons,
          if_pos (show (sr.studentId == sid && sr.academicYearId == ay) = true by
            simp [hsid, hay]),
          List.map_cons, List.cons_append, List.nil_append, ih]
      · have hsidf : (sr.studentId == sid) = false := by
          cases hcs : (sr.studentId == sid) with
          | true => exact absurd hcs hsid
          | false => rfl
        have hA : ((sts.filter (fun s => s.id == sr.studentId)).map
            (fun s => (sr, s))).filter
              (fun p => p.1.studentId == sid) = [] := by
          rw [List.filter_map, hc]
          simp [hsidf]
        rw [hA, List.filter_cons,
          if_neg (show ¬ (sr.studentId == sid && sr.academicYearId == ay) = true by
            simp [hsidf]),
          List.nil_append]
        exact ih
    · have hayf : (sr.academicYearId == ay) = false := by
        cases hcs : (sr.academicYearId == ay) with
        | true => exact absurd hcs hay
        | false => rfl
      rw [if_neg hay, List.filter_cons,
        if_neg (show ¬ (sr.studentId == sid && sr.academicYearId == ay) = true by
          simp [hayf]),
        List.filter_nil, List.nil_append]
      exact ih

theorem yearlyRowsFor_eq {db : DB} {ay sid : Nat} {st : Student}
    (hst : db.students.filter (fun s => s.id == sid) = [st]) :
    yearlyRowsFor db ay sid =
      (db.semesterResults.filter
          (fun sr => sr.studentId == sid && sr.academicYearId == ay)).map
        (fun sr => (sr, st)) :=
  joinYear_rowsFor db.semesterResults db.students ay sid st hst

theorem yearlyEntry_none {db : DB} {ay sid : Nat}
    (hnil : yearlyRowsFor db ay sid = []) : yearlyEntry db ay sid = none := by
  unfold yearlyEntry
  rw [hnil]

theorem yearlyEntry_some {db : DB} {ay sid : Nat} {st : Student}
    (hst : db.students.filter (fun s => s.id == sid) = [st])
    {r : SemesterResult} {t : List SemesterResult}
    (hsrs : db.semesterResults.filter
      (fun sr => sr.studentId == sid && sr.academicYearId == ay) = r :: t) :
    yearlyEntry db ay sid =
      some ⟨((r :: t).map (fun sr => sr.totalMarks)).sum,
        (((r :: t).map (fun sr => sr.averageScore)).sum) / (((r :: t).length : Nat) : ℚ),
        st.currentGradeId⟩ := by
  unfold yearlyEntry
  rw [yearlyRowsFor_eq hst, hsrs]
  simp only [List.map_cons, List.map_map]
  have hpos : 0 < ((r, st) :: (t.map (fun sr => (sr, st)))).length := by simp
  rw [if_pos hpos]
  simp [Function.comp]
  exact ⟨rfl, rfl⟩

theorem mem_yearlyStudentIds_iff {db : DB} {ay sid : Nat} :
    sid ∈ yearlyStudentIds db ay ↔ yearlyRowsFor db ay sid ≠ [] := by
  constructor
  · intro h
    have hmem := mem_of_mem_dedupNats _ [] h
    rcases List.mem_map.1 hmem with ⟨p, hp, hps⟩
    intro hnil
    have : p ∈ yearlyRowsFor db ay sid := by
      apply List.mem_filter.2
      exact ⟨hp, by simp [hps]⟩
    rw [hnil] at this
    simp at this
  · intro hne
    cases hrows : yearlyRowsFor db ay sid with
    | nil => exact absurd hrows hne
    | cons p t =>
      have hp : p ∈ yearlyRowsFor db ay sid := by rw [hrows]; simp
      rcases List.mem_filter.1 hp with ⟨hpscope, hpcond⟩
      have hsid : p.1.studentId = sid := by simpa using hpcond
      apply mem_dedupNats_of_mem _ []
      · exact hsid ▸ List.mem_map_of_mem _ hpscope
      · simp

/- ### The yearly run and its effect on the tables -/

theorem computeYearly_early (db : DB) (ay : Nat)
    (h : (yearlyScope db ay).isEmpty = true) : computeYearlyResults db ay = db := by
  unfold computeYearlyResults
  rw [if_pos h]

theorem computeYearly_main (db : DB) (ay : Nat)
    (h : ¬ (yearlyScope db ay).isEmpty = true) :
    computeYearlyResults db ay =
      { db with yearlyResults :=
          (((yearlyData db ay).map (yearlyRow ay (yearlyData db ay))).foldl
            addYearlyResult db.yearlyResults) } := by
  unfold computeYearlyResults
  rw [if_neg h]

theorem yearlyRow_mem_compute {db : DB} {ay sid : Nat} {e : YearEntry}
    (h : (sid, e) ∈ yearlyData db ay) :
    yearlyRow ay (yearlyData db ay) (sid, e) ∈
      (computeYearlyResults db ay).yearlyResults := by
  rcases mem_yearlyData.1 h with ⟨hid, hentry⟩
  have hrows := mem_yearlyStudentIds_iff.1 hid
  have hscope : ¬ (yearlyScope db ay).isEmpty = true := by
    intro hempty
    have hnil : yearlyScope db ay = [] := by
      cases hs : yearlyScope db ay with
      | nil => rfl
      | cons a t => rw [hs] at hempty; simp at hempty
    apply hrows
    unfold yearlyRowsFor
    rw [hnil]
    rfl
  rw [computeYearly_main db ay hscope]
  exact mem_foldl_upsert yearKey _ _ _ (yearRows_keys_nodup db ay)
    (List.mem_map_of_mem _ h)

/- ### Remaining generic helpers -/

theorem foldl_upsert_nodup_keys {α κ : Type} [DecidableEq κ] (key : α → κ)
    (L : List α) : ∀ rows : List α, (rows.map key).Nodup →
    ((L.foldl (upsertBy key) rows).map key).Nodup := by
  induction L with
  | nil => intro rows h; exact h
  | cons r t ih => intro rows h; exact ih _ (upsert_nodup_keys key rows r h)

theorem isNone_map {α β : Type} (f : α → β) (o : Option α) :
    (o.map f).isNone = o.isNone := by
  cases o <;> rfl

theorem not_not_comp {α : Type} (f : α → Bool) : (fun x => ! ! f x) = f := by
  funext x
  exact Bool.not_not (f x)

theorem filter_erase_of_neg {p : Nat → Bool} {a : Nat} (hp : p a = false)
    (l : List Nat) : (l.erase a).filter p = l.filter p := by
  induction l with
  | nil => rfl
  | cons x t ih =>
    rw [List.erase_cons]
    by_cases hx : (x == a) = true
    · have hxa : x = a := by simpa using hx
      rw [if_pos hx, hxa, List.filter_cons, if_neg (by simp [hp])]
    · rw [if_neg hx, List.filter_cons, List.filter_cons]
      by_cases hpx : (p x) = true
      · rw [if_pos hpx, if_pos hpx, ih]
      · rw [if_neg hpx, if_neg hpx, ih]

theorem addSemesterResult_eq : addSemesterResult = upsertBy semKey := rfl

theorem addYearlyResult_eq : addYearlyResult = upsertBy yearKey := rfl

/- ### C5: idempotence of the semester computation -/

/-- C5: running compute_and_store_semester_results twice in succession for
the same (academic year, semester) with the underlying tables unchanged
produces exactly the state of the first run: identical SemesterResult rows
and no additional rows. -/
theorem claim_C5_semester_recompute_idempotent (db : DB) (ay sem : Nat) :
    computeSemesterResults (computeSemesterResults db ay sem) ay sem =
      computeSemesterResults db ay sem := by
  by_cases h1 : (studentsInYear db ay).isEmpty = true
  · rw [computeSemester_early_students db ay sem h1,
      computeSemester_early_students db ay sem h1]
  · by_cases h2 : (relevantExams db ay sem).isEmpty = true
    · rw [computeSemester_early_exams db ay sem h2,
        computeSemester_early_exams db ay sem h2]
    · rw [computeSemester_main db ay sem h1 h2]
      have h1b : ¬ (studentsInYear
          { db with semesterResults :=
              (((semesterData db ay sem).map
                  (semesterRow ay sem (semesterData db ay sem))).foldl
                addSemesterResult db.semesterResults) } ay).isEmpty = true := by
        rw [studentsInYear_setSem]
        exact h1
      have h2b : ¬ (relevantExams
          { db with semesterResults :=
              (((semesterData db ay sem).map
                  (semesterRow ay sem (semesterData db ay sem))).foldl
                addSemesterResult db.semesterResults) } ay sem).isEmpty = true := by
        rw [relevantExams_setSem]
        exact h2
      rw [computeSemester_main _ ay sem h1b h2b]
      rw [semesterData_setSem]
      have hfix : (((semesterData db ay sem).map
            (semesterRow ay sem (semesterData db ay sem))).foldl
          addSemesterResult
          (((semesterData db ay sem).map
              (semesterRow ay sem (semesterData db ay sem))).foldl
            addSemesterResult db.semesterResults)) =
          (((semesterData db ay sem).map
              (semesterRow ay sem (semesterData db ay sem))).foldl
            addSemesterResult db.semesterResults) := by
        rw [addSemesterResult_eq]
        exact foldl_upsert_idem semKey _ _ (semRows_keys_nodup db ay sem)
      show ({ db with semesterResults :=
          (((semesterData db ay sem).map
              (semesterRow ay sem (semesterData db ay sem))).foldl
            addSemesterResult
            (((semesterData db ay sem).map
                (semesterRow ay sem (semesterData db ay sem))).foldl
              addSemesterResult db.semesterResults)) } : DB) =
        { db with semesterResults :=
            (((semesterData db ay sem).map
                (semesterRow ay sem (semesterData db ay sem))).foldl
              addSemesterResult db.semesterResults) }
      rw [hfix]

/- ### C10: frame property of the semester computation -/

/-- C10: a semester run touches only SemesterResult rows keyed by its own
(academic year, semester) for students surviving this run; every other row,
including a stale row of a student skipped in this run, is left exactly as
it was (neither deleted nor zeroed). -/
theorem claim_C10_semester_frame (db : DB) (ay sem : Nat) :
    (computeSemesterResults db ay sem).semesterResults.filter
        (fun r => ! (r.academicYearId == ay && r.semesterId == sem &&
          ((semesterData db ay sem).map (fun p => p.1)).contains r.studentId)) =
      db.semesterResults.filter
        (fun r => ! (r.academicYearId == ay && r.semesterId == sem &&
          ((semesterData db ay sem).map (fun p => p.1)).contains r.studentId)) := by
  by_cases h1 : (studentsInYear db ay).isEmpty = true
  · rw [computeSemester_early_students db ay sem h1]
  · by_cases h2 : (relevantExams db ay sem).isEmpty = true
    · rw [computeSemester_early_exams db ay sem h2]
    · have hproj : (computeSemesterResults db ay sem).semesterResults =
          (((semesterData db ay sem).map
              (semesterRow ay sem (semesterData db ay sem))).foldl
            addSemesterResult db.semesterResults) := by
        rw [computeSemester_main db ay sem h1 h2]
      rw [hproj, addSemesterResult_eq]
      apply foldl_upsert_filter_not
      · intro r hr
        rcases List.mem_map.1 hr with ⟨q, hq, rfl⟩
        have hmem : q.1 ∈ (semesterData db ay sem).map (fun p => p.1) :=
          List.mem_map_of_mem _ hq
        simp only [semesterRow, Bool.and_eq_true, beq_iff_eq]
        refine ⟨⟨trivial, trivial⟩, ?_⟩
        exact List.elem_eq_true_of_mem hmem
      · intro r hr x hxkey
        rcases List.mem_map.1 hr with ⟨q, hq, rfl⟩
        have hmem : q.1 ∈ (semesterData db ay sem).map (fun p => p.1) :=
          List.mem_map_of_mem _ hq
        have hkeys : x.studentId = q.1 ∧ x.semesterId = sem ∧ x.academicYearId = ay := by
          simpa [semKey, semesterRow, Prod.ext_iff] using hxkey
        simp only [Bool.and_eq_true, beq_iff_eq]
        refine ⟨⟨hkeys.2.2, hkeys.2.1⟩, ?_⟩
        rw [hkeys.1]
        exact List.elem_eq_true_of_mem hmem

/- ### C1: per-subject contribution and semester aggregation -/

/-- C1: for every student processed by the semester run with at least one
counted subject, the stored total is the sum of the per-subject achieved
values (semester-exam marks plus CAT mean) over the counted subjects, the
stored average is the achieved sum over the possible sum times 100 when the
possible sum is positive (else 0), and a SemesterResult row with exactly
these values is stored for the student. -/
theorem claim_C1_semester_aggregation (db : DB) (ay sem sid : Nat) (d : SemData)
    (h : (sid, d) ∈ semesterData db ay sem) :
    d.totalMarks = ((countedSubjects db ay sem sid).map
        (fun subj => subjectAchieved db ay sem sid subj)).sum ∧
    d.averageScore =
      (if 0 < ((countedSubjects db ay sem sid).map
            (fun subj => subjectPossible db ay sem sid subj)).sum
       then (((countedSubjects db ay sem sid).map
              (fun subj => subjectAchieved db ay sem sid subj)).sum /
            ((countedSubjects db ay sem sid).map
              (fun subj => subjectPossible db ay sem sid subj)).sum) * 100
       else 0) ∧
    ∃ rk, (⟨sid, sem, ay, d.totalMarks, d.averageScore, rk⟩ : SemesterResult) ∈
      (computeSemesterResults db ay sem).semesterResults := by
  rcases mem_semesterData.1 h with ⟨g, hdk, hentry⟩
  rcases studentSemEntry_some hentry with ⟨hcnt, hd⟩
  refine ⟨?_, ?_, ?_⟩
  · rw [hd]
    show (studentTotals db ay sem sid).score = _
    rw [studentTotals_eq]
  · rw [hd]
    show semesterAverage (studentTotals db ay sem sid) = _
    rw [studentTotals_eq]
    rfl
  · exact ⟨rankOf (semRankInput (semesterData db ay sem)) d.gradeId sid,
      semesterRow_mem_compute h⟩

/- ### C2: the cohort ranking is competition (1224) ranking -/

/-- C2: for every ranking input and grade, the ranked cohort preserves the
sorted-descending order of (student, average) pairs; the student at
position 0 gets rank 1; the student at position k gets the previous
rank of the previous student exactly when the scores are equal and otherwise rank k + 1;
and every assigned rank is at most the 1-based position, so a rank repeats
only on a tie. -/
theorem claim_C2_competition_ranking (l : List (Nat × ℚ × Nat)) (g : Nat)
    (k : Nat) (hk : k < (ranksFor l g).length) :
    (ranksFor l g).map (fun p => (p.1, p.2.1)) = sortDesc (gradeCohort l g) ∧
    ((ranksFor l g).getD k (0, 0, 0)).2.2 =
      (if k = 0 then 1
       else if ((sortDesc (gradeCohort l g)).getD k (0, 0)).2 =
            ((sortDesc (gradeCohort l g)).getD (k - 1) (0, 0)).2
         then ((ranksFor l g).getD (k - 1) (0, 0, 0)).2.2
         else k + 1) ∧
    ((ranksFor l g).getD k (0, 0, 0)).2.2 ≤ k + 1 := by
  have hlen : (ranksFor l g).length = (sortDesc (gradeCohort l g)).length :=
    rankWalk_length _ 0 1 (-1)
  have hk2 : k < (sortDesc (gradeCohort l g)).length := hlen ▸ hk
  refine ⟨rankWalk_pairs _ 0 1 (-1), ?_, ?_⟩
  · have hrec := rankWalk_getD (sortDesc (gradeCohort l g)) 0 1 (-1) k hk2
    rw [show ranksFor l g = rankWalk 0 1 (-1) (sortDesc (gradeCohort l g)) from rfl]
    rw [hrec]
    by_cases hk0 : k = 0
    · subst hk0
      simp
    · simp [hk0]
  · have hb := rankWalk_rank_le (sortDesc (gradeCohort l g)) 0 1 (-1)
      (by omega) k hk2
    simpa using hb

/- ### C7: a subject with zero possible total is excluded -/

/-- C7: a subject whose possible total is 0 is not among the counted
subjects, and removing it from any subject list leaves the semester totals
(score, possible, count) of the loop unchanged: it contributes nothing. -/
theorem claim_C7_zero_possible_subject_excluded (db : DB) (ay sem sid subj : Nat)
    (l : List Nat) (h : subjectPossible db ay sem sid subj = 0) :
    subj ∉ countedSubjects db ay sem sid ∧
    totalsOn db ay sem sid (l.erase subj) = totalsOn db ay sem sid l := by
  have hp : (decide (0 < subjectPossible db ay sem sid subj)) = false := by
    simp [h]
  constructor
  · intro hc
    rcases List.mem_filter.1 hc with ⟨_, hcond⟩
    rw [hp] at hcond
    exact absurd hcond (by simp)
  · rw [totalsOn_eq, totalsOn_eq, filter_erase_of_neg hp]

/- ### C8: rank monotonicity within a cohort -/

/-- C8: for any two ranked entries of the same grade cohort, a strictly
greater average receives a rank less than or equal to that of the smaller
average, and exactly equal averages receive equal ranks. -/
theorem claim_C8_rank_monotonicity (l : List (Nat × ℚ × Nat)) (g : Nat)
    (a b : Nat × ℚ × Nat) (ha : a ∈ ranksFor l g) (hb : b ∈ ranksFor l g) :
    (b.2.1 < a.2.1 → a.2.2 ≤ b.2.2) ∧ (a.2.1 = b.2.1 → a.2.2 = b.2.2) := by
  have hsort := sortDesc_sorted (gradeCohort l g)
  exact ⟨fun hlt => rankWalk_le_of_gt _ 0 1 (-1) (by omega) hsort a ha b hb hlt,
    fun heq => rankWalk_eq_of_eq _ 0 1 (-1) hsort a ha b hb heq⟩

/- ### Preservation of rows outside the written batch -/

theorem upsert_filter_pres {α κ : Type} [DecidableEq κ] (key : α → κ)
    (rows : List α) (r : α) (q : α → Bool)
    (hr : q r = false) (hkey : ∀ x, key x = key r → q x = false) :
    (upsertBy key rows r).filter q = rows.filter q := by
  induction rows with
  | nil => simp [upsertBy, List.filter_cons, hr]
  | cons x t ih =>
    by_cases hk : key x = key r
    · simp [upsertBy, hk, List.filter_cons, hr, hkey x hk]
    · simp only [upsertBy, hk, if_false, List.filter_cons]
      rw [ih]

theorem foldl_upsert_filter_pres {α κ : Type} [DecidableEq κ] (key : α → κ)
    (L : List α) (rows : List α) (q : α → Bool)
    (hL : ∀ r ∈ L, q r = false)
    (hkey : ∀ r ∈ L, ∀ x, key x = key r → q x = false) :
    (L.foldl (upsertBy key) rows).filter q = rows.filter q := by
  induction L generalizing rows with
  | nil => rfl
  | cons r t ih =>
    simp only [List.foldl_cons]
    rw [ih _ (fun s hs => hL s (List.mem_cons_of_mem _ hs))
      (fun s hs => hkey s (List.mem_cons_of_mem _ hs))]
    exact upsert_filter_pres key rows r q (hL r (by simp)) (hkey r (by simp))

theorem computeSemester_yearly_unchanged (db : DB) (ay sem : Nat) :
    (computeSemesterResults db ay sem).yearlyResults = db.yearlyResults := by
  by_cases h1 : (studentsInYear db ay).isEmpty = true
  · rw [computeSemester_early_students db ay sem h1]
  · by_cases h2 : (relevantExams db ay sem).isEmpty = true
    · rw [computeSemester_early_exams db ay sem h2]
    · rw [computeSemester_main db ay sem h1 h2]

theorem computeYearly_semester_unchanged (db : DB) (ay : Nat) :
    (computeYearlyResults db ay).semesterResults = db.semesterResults := by
  by_cases h1 : (yearlyScope db ay).isEmpty = true
  · rw [computeYearly_early db ay h1]
  · rw [computeYearly_main db ay h1]

/- ### C6: skipped students get no row, and the row count -/

/-- C6: a student with no score rows in the scope, or with zero counted
subjects, has no SemesterResult row created or updated by the run (all rows
with their student id are untouched), and the number of rows written equals
the number of distinct enrolled students minus the number of skipped
students. -/
theorem claim_C6_skipped_students (db : DB) (ay sem sid : Nat)
    (h : (scopedRows db ay sem sid).isEmpty = true ∨
      (studentTotals db ay sem sid).counted = 0) :
    ((computeSemesterResults db ay sem).semesterResults.filter
        (fun r => r.studentId == sid) =
      db.semesterResults.filter (fun r => r.studentId == sid)) ∧
    (semesterData db ay sem).length + (skippedStudents db ay sem).length =
      (dedupKeys [] (studentsInYear db ay)).length := by
  have hnone := studentSemEntry_none_of_skip h
  have hnot : sid ∉ (semesterData db ay sem).map (fun p => p.1) := by
    intro hc
    rcases List.mem_map.1 hc with ⟨q, hq, hq1⟩
    have hqq : q = (sid, q.2) := Prod.ext hq1 rfl
    rw [hqq] at hq
    rcases mem_semesterData.1 hq with ⟨g, _, hentry⟩
    rw [hnone g] at hentry
    exact absurd hentry (by simp)
  constructor
  · by_cases h1 : (studentsInYear db ay).isEmpty = true
    · rw [computeSemester_early_students db ay sem h1]
    · by_cases h2 : (relevantExams db ay sem).isEmpty = true
      · rw [computeSemester_early_exams db ay sem h2]
      · have hproj : (computeSemesterResults db ay sem).semesterResults =
            (((semesterData db ay sem).map
                (semesterRow ay sem (semesterData db ay sem))).foldl
              addSemesterResult db.semesterResults) := by
          rw [computeSemester_main db ay sem h1 h2]
        rw [hproj, addSemesterResult_eq]
        apply foldl_upsert_filter_pres
        · intro r hr
          rcases List.mem_map.1 hr with ⟨q, hq, rfl⟩
          have hqs : q.1 ≠ sid := by
            intro hc
            exact hnot (hc ▸ List.mem_map_of_mem _ hq)
          show ((semesterRow ay sem (semesterData db ay sem) q).studentId == sid) = false
          simpa [semesterRow] using hqs
        · intro r hr x hxkey
          rcases List.mem_map.1 hr with ⟨q, hq, rfl⟩
          have hqs : q.1 ≠ sid := by
            intro hc
            exact hnot (hc ▸ List.mem_map_of_mem _ hq)
          have hxs : x.studentId = q.1 := by
            simpa [semKey, semesterRow, Prod.ext_iff] using And.left
              (by simpa [semKey, semesterRow, Prod.ext_iff] using hxkey :
                x.studentId = q.1 ∧ x.semesterId = sem ∧ x.academicYearId = ay)
          simp [hxs, hqs]
  · have hlen := filterMap_length_add
      (fun p : Nat × Nat => (studentSemEntry db ay sem p.1 p.2).map (fun d => (p.1, d)))
      (dedupKeys [] (studentsInYear db ay))
    have hcongr : (dedupKeys [] (studentsInYear db ay)).filter
        (fun x => ((studentSemEntry db ay sem x.1 x.2).map (fun d => (x.1, d))).isNone) =
        skippedStudents db ay sem := by
      unfold skippedStudents
      exact List.filter_congr (fun x _ => isNone_map _ _)
    rw [← hcongr]
    exact hlen

/- ### C9: uniqueness of composite keys under any operation sequence -/

/-- C9: after any sequence of add_semester_result, add_yearly_result and
the two compute entry points, starting from a state whose stored result
tables have unique composite keys, the SemesterResults table still holds at
most one row per (student, semester, academic year) and the YearlyResults
table at most one row per (student, academic year). -/
theorem claim_C9_upsert_uniqueness (db db2 : DB) (h : Reach db db2)
    (hs : semUnique db.semesterResults) (hy : yearUnique db.yearlyResults) :
    semUnique db2.semesterResults ∧ yearUnique db2.yearlyResults := by
  induction h with
  | refl => exact ⟨hs, hy⟩
  | addSem db2x r hr ih =>
    refine ⟨?_, ih.2⟩
    show ((addSemesterResult db2x.semesterResults r).map semKey).Nodup
    rw [addSemesterResult_eq]
    exact upsert_nodup_keys semKey _ r ih.1
  | addYear db2x r hr ih =>
    refine ⟨ih.1, ?_⟩
    show ((addYearlyResult db2x.yearlyResults r).map yearKey).Nodup
    rw [addYearlyResult_eq]
    exact upsert_nodup_keys yearKey _ r ih.2
  | computeSem db2x ay sem hr ih =>
    constructor
    · show ((computeSemesterResults db2x ay sem).semesterResults.map semKey).Nodup
      by_cases h1 : (studentsInYear db2x ay).isEmpty = true
      · rw [computeSemester_early_students _ _ _ h1]
        exact ih.1
      · by_cases h2 : (relevantExams db2x ay sem).isEmpty = true
        · rw [computeSemester_early_exams _ _ _ h2]
          exact ih.1
        · have hproj : (computeSemesterResults db2x ay sem).semesterResults =
              (((semesterData db2x ay sem).map
                  (semesterRow ay sem (semesterData db2x ay sem))).foldl
                addSemesterResult db2x.semesterResults) := by
            rw [computeSemester_main _ _ _ h1 h2]
          rw [hproj, addSemesterResult_eq]
          exact foldl_upsert_nodup_keys semKey _ _ ih.1
    · show ((computeSemesterResults db2x ay sem).yearlyResults.map yearKey).Nodup
      rw [computeSemester_yearly_unchanged]
      exact ih.2
  | computeYear db2x ay hr ih =>
    constructor
    · show ((computeYearlyResults db2x ay).semesterResults.map semKey).Nodup
      rw [computeYearly_semester_unchanged]
      exact ih.1
    · show ((computeYearlyResults db2x ay).yearlyResults.map yearKey).Nodup
      by_cases h1 : (yearlyScope db2x ay).isEmpty = true
      · rw [computeYearly_early _ _ h1]
        exact ih.2
      · have hproj : (computeYearlyResults db2x ay).yearlyResults =
            (((yearlyData db2x ay).map (yearlyRow ay (yearlyData db2x ay))).foldl
              addYearlyResult db2x.yearlyResults) := by
          rw [computeYearly_main _ _ h1]
        rw [hproj, addYearlyResult_eq]
        exact foldl_upsert_nodup_keys yearKey _ _ ih.2

/- ### C3: yearly aggregation from semester results -/

/-- C3: for a student with a unique Students row, if their SemesterResults
rows for the year are nonempty then the yearly run stores a YearlyResult
whose total is the sum of those rows totals and whose average is the
arithmetic mean of those rows averages; if they have no SemesterResults
row for the year, the run leaves every YearlyResults row of that student
untouched (no YearlyResult is written for them). -/
theorem claim_C3_yearly_aggregation (db : DB) (ay sid : Nat) (st : Student)
    (hst : db.students.filter (fun s => s.id == sid) = [st]) :
    (∀ r : SemesterResult, ∀ t : List SemesterResult,
      db.semesterResults.filter
          (fun sr => sr.studentId == sid && sr.academicYearId == ay) = r :: t →
      ∃ rk, (⟨sid, ay, ((r :: t).map (fun sr => sr.totalMarks)).sum,
          (((r :: t).map (fun sr => sr.averageScore)).sum) /
            (((r :: t).length : Nat) : ℚ), rk⟩ : YearlyResult) ∈
        (computeYearlyResults db ay).yearlyResults) ∧
    (db.semesterResults.filter
        (fun sr => sr.studentId == sid && sr.academicYearId == ay) = [] →
      (computeYearlyResults db ay).yearlyResults.filter
          (fun r => r.studentId == sid) =
        db.yearlyResults.filter (fun r => r.studentId == sid)) := by
  constructor
  · intro r t hsrs
    have hentry := yearlyEntry_some hst hsrs
    have hrows : yearlyRowsFor db ay sid ≠ [] := by
      rw [yearlyRowsFor_eq hst, hsrs]
      simp
    have hid : sid ∈ yearlyStudentIds db ay := mem_yearlyStudentIds_iff.2 hrows
    have hmem : (sid, (⟨((r :: t).map (fun sr => sr.totalMarks)).sum,
        (((r :: t).map (fun sr => sr.averageScore)).sum) /
          (((r :: t).length : Nat) : ℚ), st.currentGradeId⟩ : YearEntry)) ∈
        yearlyData db ay :=
      mem_yearlyData.2 ⟨hid, hentry⟩
    exact ⟨rankOf (yearRankInput (yearlyData db ay)) st.currentGradeId sid,
      yearlyRow_mem_compute hmem⟩
  · intro hnil
    have hrows : yearlyRowsFor db ay sid = [] := by
      rw [yearlyRowsFor_eq hst, hnil]
      rfl
    have hid : sid ∉ yearlyStudentIds db ay := by
      intro hc
      exact (mem_yearlyStudentIds_iff.1 hc) hrows
    have hnot : sid ∉ (yearlyData db ay).map (fun p => p.1) := by
      intro hc
      rcases List.mem_map.1 hc with ⟨q, hq, hq1⟩
      have hqq : q = (sid, q.2) := Prod.ext hq1 rfl
      rw [hqq] at hq
      exact hid (mem_yearlyData.1 hq).1
    by_cases h1 : (yearlyScope db ay).isEmpty = true
    · rw [computeYearly_early db ay h1]
    · have hproj : (computeYearlyResults db ay).yearlyResults =
          (((yearlyData db ay).map (yearlyRow ay (yearlyData db ay))).foldl
            addYearlyResult db.yearlyResults) := by
        rw [computeYearly_main db ay h1]
      rw [hproj, addYearlyResult_eq]
      apply foldl_upsert_filter_pres
      · intro r2 hr2
        rcases List.mem_map.1 hr2 with ⟨q, hq, rfl⟩
        have hqs : q.1 ≠ sid := by
          intro hc
          exact hnot (hc ▸ List.mem_map_of_mem _ hq)
        show ((yearlyRow ay (yearlyData db ay) q).studentId == sid) = false
        simpa [yearlyRow] using hqs
      · intro r2 hr2 x hxkey
        rcases List.mem_map.1 hr2 with ⟨q, hq, rfl⟩
        have hqs : q.1 ≠ sid := by
          intro hc
          exact hnot (hc ▸ List.mem_map_of_mem _ hq)
        have hxs : x.studentId = q.1 :=
          (by simpa [yearKey, yearlyRow, Prod.ext_iff] using hxkey :
            x.studentId = q.1 ∧ x.academicYearId = ay).1
        simp [hxs, hqs]

/- ### C4: exam name classification (corrected) -/

/-- C4 (amended): in the per-subject computation, the semester-exam pick
considers exactly the rows whose exam name matches the SQL pattern
Semester-then-Exam (case-insensitively), the CAT rows are exactly those
whose name matches LIKE CAT (case-insensitively), and rows matching
neither pattern contribute nothing: restricting the scope rows to the
pattern-matching ones changes neither the achieved nor the possible value
of any subject. -/
theorem claim_C4_exam_classification (db : DB) (ay sem sid subj : Nat) :
    subjectAchievedOf (matchingRows (scopedRows db ay sem sid)) subj =
      subjectAchieved db ay sem sid subj ∧
    subjectPossibleOf (matchingRows (scopedRows db ay sem sid)) subj =
      subjectPossible db ay sem sid subj ∧
    Option.all (fun p => likeSemesterExam p.2.name)
      (semExamRowOf (scopedRows db ay sem sid) subj) = true ∧
    (catRowsOf (scopedRows db ay sem sid) subj).all
      (fun p => likeCAT p.2.name) = true := by
  have himp1 : ∀ p : ExamResult × Exam,
      (p.1.subjectId == subj && likeSemesterExam p.2.name) = true →
      (likeSemesterExam p.2.name || likeCAT p.2.name) = true := by
    intro p hp
    simp only [Bool.and_eq_true] at hp
    simp [hp.2]
  have himp2 : ∀ p : ExamResult × Exam,
      (p.1.subjectId == subj && likeCAT p.2.name) = true →
      (likeSemesterExam p.2.name || likeCAT p.2.name) = true := by
    intro p hp
    simp only [Bool.and_eq_true] at hp
    simp [hp.2]
  have hfind : semExamRowOf (matchingRows (scopedRows db ay sem sid)) subj =
      semExamRowOf (scopedRows db ay sem sid) subj :=
    find?_filter_of_imp _ _ himp1 _
  have hcat : catRowsOf (matchingRows (scopedRows db ay sem sid)) subj =
      catRowsOf (scopedRows db ay sem sid) subj :=
    filter_filter_of_imp _ _ himp2 _
  refine ⟨?_, ?_, ?_, ?_⟩
  · unfold subjectAchieved subjectAchievedOf
    rw [hfind, hcat]
  · unfold subjectPossible subjectPossibleOf
    rw [hfind, hcat]
  · cases hs : semExamRowOf (scopedRows db ay sem sid) subj with
    | none => rfl
    | some p =>
      have hpred := List.find?_some hs
      simp only [Bool.and_eq_true] at hpred
      simp [Option.all, hpred.2]
  · apply List.all_eq_true.2
    intro p hp
    rcases List.mem_filter.1 hp with ⟨_, hcond⟩
    simp only [Bool.and_eq_true] at hcond
    simp [hcond.2]

/-- C4 counterexample: an exam named Semester Review has a recorded score
of 50 out of 100, its display name contains the substring Semester, yet it
contributes nothing: the subject has achieved 0 and possible 0, the student
survives nowhere and the run stores no row.  Conversely an exam named in
lower case cat test 1 contains neither Semester nor CAT as a literal
substring, yet its 20 out of 30 is counted in full for the student. -/
theorem claim_C4_counterexample :
    containsPat ("Semester".toList) ("Semester Review".toList) = true ∧
    scopedRows dbSemReview 1 1 1 =
      [(⟨1, 1, 1, 50⟩, ⟨1, "Semester Review", 1, 1, 100⟩)] ∧
    subjectAchieved dbSemReview 1 1 1 1 = 0 ∧
    subjectPossible dbSemReview 1 1 1 1 = 0 ∧
    semesterData dbSemReview 1 1 = [] ∧
    (computeSemesterResults dbSemReview 1 1).semesterResults = [] ∧
    containsPat ("Semester".toList) ("cat test 1".toList) = false ∧
    containsPat ("CAT".toList) ("cat test 1".toList) = false ∧
    semesterData dbCatLower 1 1 = [(1, ⟨20, 200 / 3, 1⟩)] := by
  have hsem : semExamRowOf (scopedRows dbSemReview 1 1 1) 1 = none := by decide
  have hcat : catRowsOf (scopedRows dbSemReview 1 1 1) 1 = [] := by decide
  have hach : subjectAchieved dbSemReview 1 1 1 1 = 0 := by
    unfold subjectAchieved subjectAchievedOf
    simp only [hsem, hcat]
    norm_num
  have hposs : subjectPossible dbSemReview 1 1 1 1 = 0 := by
    unfold subjectPossible subjectPossibleOf
    simp only [hsem, hcat]
    norm_num
  have hsubj : studentSubjects dbSemReview 1 1 1 = [1] := by decide
  have htot : studentTotals dbSemReview 1 1 1 = ⟨0, 0, 0⟩ := by
    unfold studentTotals
    rw [hsubj]
    unfold totalsOn
    simp [totalsStep, hposs]
  have hentry : ∀ g, studentSemEntry dbSemReview 1 1 1 g = none := by
    intro g
    apply studentSemEntry_none_of_skip
    right
    rw [htot]
  have hdata : semesterData dbSemReview 1 1 = [] := by
    unfold semesterData
    have hdk : dedupKeys [] (studentsInYear dbSemReview 1) = [(1, 1)] := by decide
    rw [hdk]
    simp [hentry 1]
  have hcompute : (computeSemesterResults dbSemReview 1 1).semesterResults = [] := by
    have h1 : ¬ (studentsInYear dbSemReview 1).isEmpty = true := by decide
    have h2 : ¬ (relevantExams dbSemReview 1 1).isEmpty = true := by decide
    rw [computeSemester_main _ _ _ h1 h2, hdata]
    rfl
  have hsem2 : semExamRowOf (scopedRows dbCatLower 1 1 1) 1 = none := by decide
  have hcat2 : catRowsOf (scopedRows dbCatLower 1 1 1) 1 =
      [(⟨1, 1, 1, 20⟩, ⟨1, "cat test 1", 1, 1, 30⟩)] := by decide
  have hach2 : subjectAchieved dbCatLower 1 1 1 1 = 20 := by
    unfold subjectAchieved subjectAchievedOf
    simp only [hsem2, hcat2]
    norm_num
  have hposs2 : subjectPossible dbCatLower 1 1 1 1 = 30 := by
    unfold subjectPossible subjectPossibleOf
    simp only [hsem2, hcat2]
    norm_num
  have hsubj2 : studentSubjects dbCatLower 1 1 1 = [1] := by decide
  have htot2 : studentTotals dbCatLower 1 1 1 = ⟨20, 30, 1⟩ := by
    unfold studentTotals
    rw [hsubj2]
    unfold totalsOn
    simp [totalsStep, hach2, hposs2]
  have hsrne : ¬ (scopedRows dbCatLower 1 1 1).isEmpty = true := by decide
  have hsubjne : ¬ (studentSubjects dbCatLower 1 1 1).isEmpty = true := by decide
  have hentry2 : studentSemEntry dbCatLower 1 1 1 1 = some ⟨20, 200 / 3, 1⟩ := by
    unfold studentSemEntry
    rw [if_neg hsrne, if_neg hsubjne, htot2]
    simp [semesterAverage]
    norm_num
  have hdata2 : semesterData dbCatLower 1 1 = [(1, ⟨20, 200 / 3, 1⟩)] := by
    unfold semesterData
    have hdk2 : dedupKeys [] (studentsInYear dbCatLower 1) = [(1, 1)] := by decide
    rw [hdk2]
    simp [hentry2]
  exact ⟨by decide, by decide, hach, hposs, hdata, hcompute, by decide, by decide, hdata2⟩

/- ### Concrete witnesses for the claims with hypotheses -/

/-- C1 witness: the spec scenario student with Mathematics 70/100 and CATs
25/30 and 28/30 survives with total 193/2 = 96.5 and average 965/13 (about
74.23 percent), instantiating the aggregation theorem. -/
theorem claim_C1_witness :
    ((1, (⟨193 / 2, 965 / 13, 1⟩ : SemData)) ∈ semesterData dbJohn 1 1) ∧
    ((⟨193 / 2, 965 / 13, 1⟩ : SemData).totalMarks =
        ((countedSubjects dbJohn 1 1 1).map
          (fun subj => subjectAchieved dbJohn 1 1 1 subj)).sum ∧
      (⟨193 / 2, 965 / 13, 1⟩ : SemData).averageScore =
        (if 0 < ((countedSubjects dbJohn 1 1 1).map
              (fun subj => subjectPossible dbJohn 1 1 1 subj)).sum
         then (((countedSubjects dbJohn 1 1 1).map
                (fun subj => subjectAchieved dbJohn 1 1 1 subj)).sum /
              ((countedSubjects dbJohn 1 1 1).map
                (fun subj => subjectPossible dbJohn 1 1 1 subj)).sum) * 100
         else 0) ∧
      ∃ rk, (⟨1, 1, 1, (⟨193 / 2, 965 / 13, 1⟩ : SemData).totalMarks,
          (⟨193 / 2, 965 / 13, 1⟩ : SemData).averageScore, rk⟩ : SemesterResult) ∈
        (computeSemesterResults dbJohn 1 1).semesterResults) := by
  have hsem : semExamRowOf (scopedRows dbJohn 1 1 1) 1 =
      some (⟨1, 1, 1, 70⟩, ⟨1, "Semester 1 Exam", 1, 1, 100⟩) := by decide
  have hcat : catRowsOf (scopedRows dbJohn 1 1 1) 1 =
      [(⟨1, 2, 1, 25⟩, ⟨2, "CAT 1", 1, 1, 30⟩),
        (⟨1, 3, 1, 28⟩, ⟨3, "CAT 2", 1, 1, 30⟩)] := by decide
  have hach : subjectAchieved dbJohn 1 1 1 1 = 193 / 2 := by
    unfold subjectAchieved subjectAchievedOf
    simp only [hsem, hcat]
    norm_num
  have hposs : subjectPossible dbJohn 1 1 1 1 = 130 := by
    unfold subjectPossible subjectPossibleOf
    simp only [hsem, hcat]
    norm_num
  have hsubj : studentSubjects dbJohn 1 1 1 = [1] := by decide
  have htot : studentTotals dbJohn 1 1 1 = ⟨193 / 2, 130, 1⟩ := by
    unfold studentTotals
    rw [hsubj]
    unfold totalsOn
    simp [totalsStep, hach, hposs]
  have hsrne : ¬ (scopedRows dbJohn 1 1 1).isEmpty = true := by decide
  have hsubjne : ¬ (studentSubjects dbJohn 1 1 1).isEmpty = true := by decide
  have hentry : studentSemEntry dbJohn 1 1 1 1 = some ⟨193 / 2, 965 / 13, 1⟩ := by
    unfold studentSemEntry
    rw [if_neg hsrne, if_neg hsubjne, htot]
    simp [semesterAverage]
    norm_num
  have hmem : (1, (⟨193 / 2, 965 / 13, 1⟩ : SemData)) ∈ semesterData dbJohn 1 1 := by
    apply mem_semesterData.2
    refine ⟨1, ?_, hentry⟩
    have hdk : dedupKeys [] (studentsInYear dbJohn 1) = [(1, 1)] := by decide
    rw [hdk]
    simp
  exact ⟨hmem, claim_C1_semester_aggregation dbJohn 1 1 1 _ hmem⟩

/-- C2 witness: scores 90, 90, 80 in one grade receive ranks 1, 1, 3, and
position 2 instantiates the ranking recurrence. -/
theorem claim_C2_witness :
    (2 < (ranksFor rankInput3 1).length) ∧
    ((ranksFor rankInput3 1).map (fun p => (p.1, p.2.1)) =
        sortDesc (gradeCohort rankInput3 1) ∧
      ((ranksFor rankInput3 1).getD 2 (0, 0, 0)).2.2 =
        (if (2 : Nat) = 0 then 1
         else if ((sortDesc (gradeCohort rankInput3 1)).getD 2 (0, 0)).2 =
              ((sortDesc (gradeCohort rankInput3 1)).getD (2 - 1) (0, 0)).2
           then ((ranksFor rankInput3 1).getD (2 - 1) (0, 0, 0)).2.2
           else 2 + 1) ∧
      ((ranksFor rankInput3 1).getD 2 (0, 0, 0)).2.2 ≤ 2 + 1) ∧
    (ranksFor rankInput3 1).map (fun p => p.2.2) = [1, 1, 3] :=
  ⟨by decide, claim_C2_competition_ranking rankInput3 1 2 (by decide), by decide⟩

/-- C3 witness: a student with semester results 100 marks at 50 percent and
110 marks at 60 percent in the year gets a yearly row with total 210 and
average 55, instantiating the yearly aggregation theorem. -/
theorem claim_C3_witness :
    (dbYear.students.filter (fun s => s.id == 1) = [⟨1, 1⟩]) ∧
    (dbYear.semesterResults.filter
        (fun sr => sr.studentId == 1 && sr.academicYearId == 1) =
      (⟨1, 1, 1, 100, 50, 2⟩ : SemesterResult) :: [⟨1, 2, 1, 110, 60, 3⟩]) ∧
    (∃ rk, (⟨1, 1,
        ((((⟨1, 1, 1, 100, 50, 2⟩ : SemesterResult) :: [⟨1, 2, 1, 110, 60, 3⟩]).map
            (fun sr => sr.totalMarks)).sum),
        ((((⟨1, 1, 1, 100, 50, 2⟩ : SemesterResult) :: [⟨1, 2, 1, 110, 60, 3⟩]).map
              (fun sr => sr.averageScore)).sum) /
          ((((⟨1, 1, 1, 100, 50, 2⟩ : SemesterResult) ::
              [⟨1, 2, 1, 110, 60, 3⟩]).length : Nat) : ℚ), rk⟩ : YearlyResult) ∈
      (computeYearlyResults dbYear 1).yearlyResults) := by
  have h1 : dbYear.students.filter (fun s => s.id == 1) = [⟨1, 1⟩] := by decide
  have h2 : dbYear.semesterResults.filter
      (fun sr => sr.studentId == 1 && sr.academicYearId == 1) =
      (⟨1, 1, 1, 100, 50, 2⟩ : SemesterResult) :: [⟨1, 2, 1, 110, 60, 3⟩] := by decide
  exact ⟨h1, h2, (claim_C3_yearly_aggregation dbYear 1 1 ⟨1, 1⟩ h1).1 _ _ h2⟩

/-- C6 witness: an enrolled student with zero score rows is skipped: the
run writes no row for them, and the survivor count is the enrolled count
minus one. -/
theorem claim_C6_witness :
    ((scopedRows dbSkip 1 1 1).isEmpty = true ∨
      (studentTotals dbSkip 1 1 1).counted = 0) ∧
    (((computeSemesterResults dbSkip 1 1).semesterResults.filter
        (fun r => r.studentId == 1) =
      dbSkip.semesterResults.filter (fun r => r.studentId == 1)) ∧
      (semesterData dbSkip 1 1).length + (skippedStudents dbSkip 1 1).length =
        (dedupKeys [] (studentsInYear dbSkip 1)).length) :=
  ⟨Or.inl (by decide), claim_C6_skipped_students dbSkip 1 1 1 (Or.inl (by decide))⟩

/-- C7 witness: the subject whose only score row sits on a non-matching
exam has possible 0, is not counted, and removing it changes no totals. -/
theorem claim_C7_witness :
    subjectPossible dbSemReview 1 1 1 1 = 0 ∧
    ((1 : Nat) ∉ countedSubjects dbSemReview 1 1 1 ∧
      totalsOn dbSemReview 1 1 1 (([1] : List Nat).erase 1) =
        totalsOn dbSemReview 1 1 1 [1]) := by
  have hsem : semExamRowOf (scopedRows dbSemReview 1 1 1) 1 = none := by decide
  have hcat : catRowsOf (scopedRows dbSemReview 1 1 1) 1 = [] := by decide
  have hposs : subjectPossible dbSemReview 1 1 1 1 = 0 := by
    unfold subjectPossible subjectPossibleOf
    simp only [hsem, hcat]
    norm_num
  exact ⟨hposs,
    claim_C7_zero_possible_subject_excluded dbSemReview 1 1 1 1 [1] hposs⟩

/-- C8 witness: with averages 90, 90, 80 in one cohort, the student at 90
ranks no worse than the student at 80. -/
theorem claim_C8_witness :
    ((1, (90 : ℚ), 1) ∈ ranksFor rankInput3 1) ∧
    ((3, (80 : ℚ), 3) ∈ ranksFor rankInput3 1) ∧
    (((80 : ℚ) < 90 → (1 : Nat) ≤ 3) ∧ ((90 : ℚ) = 80 → (1 : Nat) = 3)) :=
  ⟨by decide, by decide,
    claim_C8_rank_monotonicity rankInput3 1 (1, 90, 1) (3, 80, 3)
      (by decide) (by decide)⟩

/-- C9 witness: one add_semester_result call on an empty store keeps both
uniqueness invariants. -/
theorem claim_C9_witness :
    semUnique ({ dbJohn with semesterResults :=
        (addSemesterResult dbJohn.semesterResults ⟨1, 1, 1, 50, 50, 1⟩) } : DB).semesterResults ∧
    yearUnique ({ dbJohn with semesterResults :=
        (addSemesterResult dbJohn.semesterResults ⟨1, 1, 1, 50, 50, 1⟩) } : DB).yearlyResults :=
  claim_C9_upsert_uniqueness dbJohn _
    (Reach.addSem dbJohn dbJohn ⟨1, 1, 1, 50, 50, 1⟩ (Reach.refl dbJohn))
    (by show (dbJohn.semesterResults.map semKey).Nodup; decide)
    (by show (dbJohn.yearlyResults.map yearKey).Nodup; decide)

end SMS
